import Mathlib

/-!
# Verification of the run/state orchestration core

A shallow embedding, in Lean 4, of the state-orchestration core of this
Airflow snapshot:

* `airflow/models/mappedoperator.py` — `MappedOperator.expand_mapped_task`
* `airflow/api/common/mark_tasks.py` — `set_state`, `_create_dagruns`,
  `_get_execution_dates` and their helpers
* `airflow/sensors/base.py` — the sensor poke loop and
  `BaseSensorOperator._get_next_poke_interval`
* `airflow/models/taskinstancehistory.py` — `TaskInstanceHistory.record_ti`

The database is modelled as explicit lists of rows threaded through each
operation; SQLAlchemy queries become list filters, `session.merge` becomes
an upsert keyed on the primary key, and exceptions become `Except` errors.
Python `datetime` values are modelled by an integer instant plus a
timezone-awareness flag; float durations are modelled by `ℚ`.

Collaborator modules that are not part of this snapshot (`airflow/utils/state.py`,
`airflow/models/dagrun.py`, `airflow/models/taskinstance.py`,
`airflow/timetables/base.py`) are modelled from the specification; each such
definition carries a doc comment saying so.
-/

namespace Airflow

/-- Task-instance states, as listed in the spec's data model
(`none` is represented by `Option.none` at use sites, matching a SQL NULL). -/
inductive TIState
  | scheduled
  | queued
  | running
  | upForRetry
  | upForReschedule
  | success
  | failed
  | skipped
  | removed
deriving DecidableEq, Repr

/-- Modelled from the spec: `State.finished` (airflow/utils/state.py is not in
src/). The spec lists the terminal states for these components as
success, failed, skipped. -/
def finishedStates : List TIState := [.success, .failed, .skipped]

/-- Modelled from the spec: `State.unfinished` (airflow/utils/state.py is not in
src/): the non-terminal states other than `removed` (the spec says nothing
transitions a removed instance back, so a removed row is not reusable). -/
def unfinishedStates : List TIState :=
  [.scheduled, .queued, .running, .upForRetry, .upForReschedule]

/-- A `datetime` value: an integer instant plus a timezone-awareness flag
(`timezone.is_localized` reads the flag). -/
structure DT where
  val : Int
  aware : Bool := true
deriving DecidableEq, Repr

/-- A task-instance row, keyed by (dag_id, task_id, run_id, map_index),
with the columns the embedded operations read or write. -/
structure TIRow where
  dag_id : String
  task_id : String
  run_id : String
  map_index : Int
  try_number : Int := 0
  state : Option TIState := none
  start_date : Option DT := none
  end_date : Option DT := none
  duration : Option Int := none
deriving DecidableEq, Repr

/-- A `TaskMap` row: the resolved mapping length recorded by an upstream
producer at (dag_id, task_id, run_id, map_index). -/
structure TaskMapRow where
  dag_id : String
  task_id : String
  run_id : String
  map_index : Int
  length : Int
deriving DecidableEq, Repr

/-- The slice of the store that `expand_mapped_task` reads and writes. -/
structure MapDb where
  tis : List TIRow
  task_maps : List TaskMapRow
deriving DecidableEq, Repr

/-- `or_(TaskInstance.state.in_(State.unfinished), TaskInstance.state.is_(None))`:
the unfinished-or-NULL filter used to locate the unexpanded placeholder. -/
def tiUnfinishedOrNull (s : Option TIState) : Bool :=
  match s with
  | none => true
  | some s => unfinishedStates.contains s

/-- The placeholder filter of `expand_mapped_task`: same dag/run, the mapped
task's own task_id, map_index -1, state unfinished or NULL. -/
def isPlaceholderTI (dag_id run_id task_id : String) (ti : TIRow) : Bool :=
  ti.dag_id == dag_id && ti.run_id == run_id && ti.task_id == task_id &&
    ti.map_index == -1 && tiUnfinishedOrNull ti.state

/-- The (dag_id, task_id, run_id) filter used for the max-map-index query and
the removal update. -/
def sameTaskRun (dag_id task_id run_id : String) (ti : TIRow) : Bool :=
  ti.dag_id == dag_id && ti.task_id == task_id && ti.run_id == run_id

/-- Primary-key equality of task-instance rows. -/
def tiKeyEq (a b : TIRow) : Bool :=
  a.dag_id == b.dag_id && a.task_id == b.task_id && a.run_id == b.run_id &&
    a.map_index == b.map_index

/-- `session.merge`: upsert a row by primary key. -/
def mergeTI (tis : List TIRow) (ti : TIRow) : List TIRow :=
  if tis.any (tiKeyEq ti) then tis.map (fun old => if tiKeyEq ti old then ti else old)
  else tis ++ [ti]

/-- Python `range(a, b)` over integers. -/
def intRange (a b : Int) : List Int :=
  (List.range (b - a).toNat).map (fun i : Nat => a + (i : Int))

/-- SQL `MAX(...)`: `none` on an empty set of rows. -/
def listMaxInt : List Int → Option Int
  | [] => none
  | x :: xs =>
    match listMaxInt xs with
    | none => some x
    | some m => some (max x m)

/-- `session.query(func.max(TaskInstance.map_index)).filter(...)`. -/
def maxMapIndex (tis : List TIRow) (dag_id task_id run_id : String) : Option Int :=
  listMaxInt (tis.filterMap (fun ti =>
    if sameTaskRun dag_id task_id run_id ti then some ti.map_index else none))

/-- The ways `expand_mapped_task` can raise. -/
inductive ExpandError
  | upstreamNotFound
  | multipleResults
  | maxOverNoRows
deriving DecidableEq, Repr

/-- The `TaskMap.length` lookup at the head of `expand_mapped_task`. -/
def lookupTaskMapLength (db : MapDb) (up : TIRow) : Option Int :=
  (db.task_maps.find? (fun r =>
    r.dag_id == up.dag_id && r.task_id == up.task_id &&
      r.run_id == up.run_id && r.map_index == up.map_index)).map TaskMapRow.length

/-- The fresh `TaskInstance` built for one map index during expansion:
`TaskInstance(self, run_id=..., map_index=index, state=state)`. -/
def mkExpTI (dag_id task_id run_id : String) (state : Option TIState) (i : Int) : TIRow :=
  { dag_id := dag_id, task_id := task_id, run_id := run_id, map_index := i, state := state }

/-- The accumulation step for the create loop of `expand_mapped_task`:
build a fresh `TaskInstance` for a map index and merge it into the store. -/
def expandStep (dag_id task_id run_id : String) (state : Option TIState)
    (acc : List TIRow × List TIRow) (i : Int) : List TIRow × List TIRow :=
  (acc.1 ++ [mkExpTI dag_id task_id run_id state i], mergeTI acc.2 (mkExpTI dag_id task_id run_id state i))

/-- The trailing bulk update of `expand_mapped_task`: set to removed every row
of this task and run whose map index is at or beyond the resolved length. -/
def removeBeyond (dag_id task_id run_id : String) (n : Int) (tis : List TIRow) : List TIRow :=
  tis.map (fun ti =>
    if sameTaskRun dag_id task_id run_id ti && decide (n ≤ ti.map_index)
    then { ti with state := some .removed } else ti)

/-- `MappedOperator.expand_mapped_task` (airflow/models/mappedoperator.py,
lines 282-374). `self_task_id` is the mapped operator's own task id; `up` is
the upstream task instance the expansion is driven by. Returns the created
or re-used task instances and the updated store, or the raised error. -/
def expand_mapped_task (self_task_id : String) (up : TIRow) (db : MapDb) :
    Except ExpandError (List TIRow × MapDb) :=
  match lookupTaskMapLength db up with
  | none => .error .upstreamNotFound
  | some task_map_info_length =>
    let placeholders := db.tis.filter (isPlaceholderTI up.dag_id up.run_id self_task_id)
    if 2 ≤ placeholders.length then .error .multipleResults
    else
      match placeholders.head? with
      | some unmapped_ti =>
        if task_map_info_length < 1 then
          let tis1 := db.tis.map (fun ti =>
            if isPlaceholderTI up.dag_id up.run_id self_task_id ti
            then { ti with state := some .skipped } else ti)
          .ok ([], { db with tis := tis1 })
        else
          let rekeyed := { unmapped_ti with map_index := (0 : Int) }
          let state := unmapped_ti.state
          let tis1 := db.tis.map (fun ti =>
            if isPlaceholderTI up.dag_id up.run_id self_task_id ti then rekeyed else ti)
          let res := (intRange 1 task_map_info_length).foldl
            (expandStep up.dag_id self_task_id up.run_id state) ([], tis1)
          let tis2 := removeBeyond up.dag_id self_task_id up.run_id task_map_info_length res.2
          .ok (rekeyed :: res.1, { db with tis := tis2 })
      | none =>
        match maxMapIndex db.tis up.dag_id self_task_id up.run_id with
        | none => .error .maxOverNoRows
        | some current_max =>
          let res := (intRange (current_max + 1) task_map_info_length).foldl
            (expandStep up.dag_id self_task_id up.run_id none) ([], db.tis)
          let tis2 := removeBeyond up.dag_id self_task_id up.run_id task_map_info_length res.2
          .ok (res.1, { db with tis := tis2 })

/-! ## Task-instance history (`airflow/models/taskinstancehistory.py`) -/

/-- An append-only history row; one per
(dag_id, task_id, run_id, map_index, try_number). -/
structure HistRow where
  dag_id : String
  task_id : String
  run_id : String
  map_index : Int
  try_number : Int
  state : Option TIState
  start_date : Option DT
  end_date : Option DT
  duration : Option Int
deriving DecidableEq, Repr

/-- The existence filter of `record_ti`: a history row with the same
(dag_id, task_id, run_id, map_index, try_number). -/
def histKeyMatches (ti : TIRow) (hRow : HistRow) : Bool :=
  hRow.dag_id == ti.dag_id && hRow.task_id == ti.task_id && hRow.run_id == ti.run_id &&
    hRow.map_index == ti.map_index && hRow.try_number == ti.try_number

/-- `TaskInstanceHistory.__init__(ti, state=...)`: copy the instance's columns
into a history row, with the state the caller decided on (the constructor
keeps the copied state when the override is falsy; `record_ti` only overrides
with `FAILED` or passes the instance's own state, so the net state is always
the one given here). -/
def mkHistRow (ti : TIRow) (state : Option TIState) : HistRow :=
  { dag_id := ti.dag_id, task_id := ti.task_id, run_id := ti.run_id,
    map_index := ti.map_index, try_number := ti.try_number,
    state := state, start_date := ti.start_date, end_date := ti.end_date,
    duration := ti.duration }

/-- `ti.state in State.finished` with SQL-NULL semantics: a NULL state is
not in the finished set. -/
def isFinishedState (s : Option TIState) : Bool :=
  match s with
  | some st => finishedStates.contains st
  | none => false

/-- Modelled from the spec: `TaskInstance.set_duration`
(airflow/models/taskinstance.py is not in src/): the duration is recomputed
from the start and end dates when both are set, and cleared otherwise. -/
def set_duration (ti : TIRow) : TIRow :=
  match ti.start_date, ti.end_date with
  | some s, some e => { ti with duration := some (e.val - s.val) }
  | _, _ => { ti with duration := none }

/-- `TaskInstanceHistory.record_ti` (airflow/models/taskinstancehistory.py,
lines 175-196): a no-op when a history row for the same key already exists;
otherwise, an instance not in a finished state is recorded as failed after
stamping its end date and recomputing its duration. Returns the (possibly
mutated) live instance and the history table. -/
def record_ti (now : DT) (ti : TIRow) (hist : List HistRow) : TIRow × List HistRow :=
  if hist.any (histKeyMatches ti) then (ti, hist)
  else if isFinishedState ti.state then (ti, hist ++ [mkHistRow ti ti.state])
  else
    let ti := set_duration { ti with end_date := some now }
    (ti, hist ++ [mkHistRow ti (some .failed)])

/-! ## Sensor poke loop (`airflow/sensors/base.py`) -/

/-- The four sensor fail policies of `FailPolicy`. -/
inductive FailPolicy
  | none
  | skip_on_any_error
  | skip_on_timeout
  | ignore_error
deriving DecidableEq, Repr

/-- What one invocation of the criteria callable (`self.poke`) does. A truthy
return is `done`; `errTimeoutClass` stands for any of AirflowSensorTimeout,
AirflowTaskTimeout, AirflowPokeFailException, AirflowSkipException;
`errGeneric` is every other exception. -/
inductive PokeOutcome
  | done
  | notDone
  | errTimeoutClass
  | errGeneric
deriving DecidableEq, Repr

/-- How one call of `BaseSensorOperator.execute` ends. `skipped` is a raised
AirflowSkipException; `raisedTimeoutClass` / `raisedGeneric` are the poke's
own exception propagated; `sensorTimeout` is the AirflowSensorTimeout raised
by the deadline check; `rescheduled` is the AirflowRescheduleException of
reschedule mode; `noFuel` marks exhaustion of the recursion bound. -/
inductive SensorOutcome
  | success
  | raisedTimeoutClass
  | raisedGeneric
  | skipped
  | sensorTimeout
  | rescheduled
  | noFuel
deriving DecidableEq, Repr

/-- The `while True` poke loop of `BaseSensorOperator.execute` (lines
340-392), fuel-bounded. `poke k` is the k-th criteria invocation; `elapsed k`
is the `run_duration()` observed right after it. In blocking mode
(`reschedule = false`) a not-yet-satisfied poke below the deadline sleeps and
loops; in reschedule mode it raises a reschedule signal. -/
def sensorExecute (policy : FailPolicy) (reschedule : Bool) (timeout : ℚ)
    (poke : Nat → PokeOutcome) (elapsed : Nat → ℚ) : Nat → Nat → SensorOutcome
  | 0, _ => .noFuel
  | fuel+1, k =>
    let notYet : SensorOutcome :=
      if timeout < elapsed k then
        (if policy = FailPolicy.skip_on_timeout then .skipped else .sensorTimeout)
      else if reschedule then .rescheduled
      else sensorExecute policy reschedule timeout poke elapsed fuel (k+1)
    match poke k with
    | .done => .success
    | .errTimeoutClass =>
      match policy with
      | .skip_on_timeout => .skipped
      | .skip_on_any_error => .skipped
      | .none => .raisedTimeoutClass
      | .ignore_error => .raisedTimeoutClass
    | .errGeneric =>
      match policy with
      | .skip_on_any_error => .skipped
      | .ignore_error => notYet
      | .none => .raisedGeneric
      | .skip_on_timeout => .raisedGeneric
    | .notDone => notYet

/-- `timedelta.max.total_seconds()`: 999999999 days, 23:59:59.999999. -/
def timedeltaMaxSeconds : ℚ := (86399999999999999999 : ℚ) / 1000000

/-- The sensor configuration feeding `_get_next_poke_interval`
(`reschedule` is `mode == "reschedule"`). -/
structure SensorCfg where
  poke_interval : ℚ
  timeout : ℚ
  exponential_backoff : Bool
  max_wait : Option ℚ
  reschedule : Bool

/-- `max(int(self.poke_interval * (2 ** (poke_count - 2))), 1)`. -/
def minBackoff (poke_interval : ℚ) (poke_count : Nat) : Int :=
  max ⌊poke_interval * (2 : ℚ) ^ ((poke_count : Int) - 2)⌋ 1

/-- The string hashed for the deterministic jitter:
`dag_id + "#" + task_id + "#" + str(started_at) + "#" + str(poke_count)`. -/
def runHashKey (dag_id task_id started_at : String) (poke_count : Nat) : String :=
  dag_id ++ "#" ++ task_id ++ "#" ++ started_at ++ "#" ++ toString poke_count

/-- `min_backoff + run_hash % min_backoff`: the jittered backoff before caps.
`h` stands for the SHA-1 digest read as an integer. -/
def moddedHash (h : String → Nat) (dag_id task_id started_at : String)
    (poke_count : Nat) (min_backoff : Int) : ℚ :=
  ((min_backoff + (h (runHashKey dag_id task_id started_at poke_count) : Int) % min_backoff : Int) : ℚ)

/-- `interval_with_jitter` / `delay_backoff_in_seconds` for one try number:
the jittered backoff capped at `timedelta.max.total_seconds() - 1`. -/
def intervalWithJitter (h : String → Nat) (poke_interval : ℚ)
    (dag_id task_id started_at : String) (poke_count : Nat) : ℚ :=
  min (moddedHash h dag_id task_id started_at poke_count (minBackoff poke_interval poke_count))
    (timedeltaMaxSeconds - 1)

/-- The reschedule-mode re-derivation of the try number from elapsed time
(lines 412-441 of sensors/base.py): simulate the cumulative backoff series
forward until it exceeds the elapsed duration. Every simulated interval is at
least one second, so the fuel `getNextPokeInterval` passes always suffices. -/
def estimatePokeCount (h : String → Nat) (poke_interval : ℚ)
    (dag_id task_id started_at : String) (elapsed : ℚ) :
    Nat → ℚ → Nat → Nat
  | 0, _, cnt => cnt
  | fuel+1, cumulative, cnt =>
    if cumulative ≤ elapsed then
      estimatePokeCount h poke_interval dag_id task_id started_at elapsed fuel
        (cumulative + intervalWithJitter h poke_interval dag_id task_id started_at (cnt + 1))
        (cnt + 1)
    else cnt

/-- `BaseSensorOperator._get_next_poke_interval` (airflow/sensors/base.py,
lines 402-459). `h` is the (deterministic) SHA-1 digest-as-integer function;
`started_at` is the string rendering of the start instant; `elapsed` is the
value `run_duration()` reports. `estimated_poke_count or poke_count` is the
Python falsy-or. A falsy (zero) `max_wait` applies no cap. -/
def getNextPokeInterval (h : String → Nat) (cfg : SensorCfg)
    (dag_id task_id started_at : String) (poke_count : Nat) (elapsed : ℚ) : ℚ :=
  if !cfg.exponential_backoff then cfg.poke_interval
  else
    let pc :=
      if cfg.reschedule then
        let est := estimatePokeCount h cfg.poke_interval dag_id task_id started_at elapsed
          ((Int.toNat ⌈elapsed⌉) + 2) 0 0
        if est ≠ 0 then est else poke_count
      else poke_count
    let delay := intervalWithJitter h cfg.poke_interval dag_id task_id started_at pc
    let new_interval := min (cfg.timeout - (⌊elapsed⌋ : ℚ)) delay
    match cfg.max_wait with
    | some mw => if mw == 0 then new_interval else min mw new_interval
    | none => new_interval

/-! ## The mark-tasks subsystem (`airflow/api/common/mark_tasks.py`) -/

/-- A data interval: the [start, end) logical window a run covers. -/
structure Iv where
  ivStart : DT
  ivEnd : DT
deriving DecidableEq, Repr

/-- A (logical timestamp, data interval) pair, as produced by a timetable. -/
structure RunInfo where
  logical_date : DT
  data_interval : Iv
deriving DecidableEq, Repr

/-- Modelled from the spec: `DagRunInfo.interval(start, end)`
(airflow/timetables/base.py is not in src/): the logical date of an
interval-based info is the interval's start. -/
def runInfoOfInterval (iv : Iv) : RunInfo := { logical_date := iv.ivStart, data_interval := iv }

/-- Modelled from the spec: the timetable surface the mark-tasks code reads:
`can_run`, `periodic`, and the boundary enumeration
`DAG.iter_dagrun_infos_between(start, end, align=False)`. -/
structure Timetable where
  can_run : Bool
  periodic : Bool
  infos_between : DT → DT → List RunInfo

/-- A task node: its id, its operator type name, whether it is a
SubDagOperator, and the id of its nested dag if any. -/
structure Task where
  task_id : String
  task_type : String := ""
  is_subdag_op : Bool := false
  subdag_id : Option String := none

/-- A dag: id, task set, edge list (upstream id, downstream id), timetable,
and the start-date attributes `_get_execution_dates` reads. -/
structure Dag where
  dag_id : String
  tasks : List Task
  edges : List (String × String)
  timetable : Timetable
  default_args_start_date : Option DT := none
  start_date : Option DT := none

/-- A dag-run row. -/
structure DagRunRow where
  dag_id : String
  run_id : String
  execution_date : DT
  data_interval : Iv
  state : String
  run_type : String
  external_trigger : Bool := false
  start_date : Option DT := none
deriving DecidableEq, Repr

/-- The store and clock the mark-tasks operations run against. `dags` is the
catalog used to resolve a task's nested subdag reference. -/
structure Env where
  dags : List Dag
  dag_runs : List DagRunRow
  tis : List TIRow
  now : DT

/-- Maximum of a list of datetimes, `none` when empty. -/
def listMaxDT : List DT → Option DT
  | [] => none
  | x :: xs =>
    match listMaxDT xs with
    | none => some x
    | some m => some (if m.val ≤ x.val then x else m)

/-- Modelled from the spec: `DAG.get_latest_execution_date` — the store's
latest recorded execution timestamp for the dag, null when it has no runs. -/
def get_latest_execution_date (env : Env) (dag_id : String) : Option DT :=
  listMaxDT (env.dag_runs.filterMap (fun r =>
    if r.dag_id == dag_id then some r.execution_date else none))

/-- Modelled from the spec: `timezone.coerce_datetime` — make the value
timezone-aware (the instant itself is already UTC in this model). -/
def coerceDT (d : DT) : DT := { d with aware := true }

/-- Modelled from the spec: `DAG.get_dagruns_between(start_date, end_date)` —
the dag's runs whose execution timestamp lies in the closed range. -/
def get_dagruns_between (env : Env) (dag_id : String) (s e : DT) : List DagRunRow :=
  env.dag_runs.filter (fun r =>
    r.dag_id == dag_id && decide (s.val ≤ r.execution_date.val) &&
      decide (r.execution_date.val ≤ e.val))

/-- Insertion step of an insertion sort of datetimes, ascending. -/
def insertDT (x : DT) : List DT → List DT
  | [] => [x]
  | y :: ys => if x.val ≤ y.val then x :: y :: ys else y :: insertDT x ys

/-- Insertion sort of datetimes, ascending. -/
def sortDT (l : List DT) : List DT := l.foldr insertDT []

/-- Python `sorted({...})`: deduplicate, then sort ascending. -/
def sortedDedupDT (l : List DT) : List DT := sortDT l.dedup

/-- The `ValueError`s the mark-tasks code raises. -/
inductive MarkErr
  | valueError (msg : String)
deriving DecidableEq, Repr

/-- The start-date selection of `_get_execution_dates`: the dag's
default-args start date, else the dag start date, else the requested
timestamp — but only when `past` is set; otherwise the requested timestamp. -/
def startDateSel (dag : Dag) (execution_date : DT) (past : Bool) : DT :=
  if past then
    match dag.default_args_start_date with
    | some s => s
    | none =>
      match dag.start_date with
      | some s => s
      | none => execution_date
  else execution_date

/-- The date enumeration of `_get_execution_dates` once the range is fixed:
non-schedulable timetables fall back to existing runs (sorted, deduplicated);
non-periodic ones give the single start date; periodic ones enumerate the
timetable's boundaries with alignment disabled. -/
def execDatesCore (env : Env) (dag : Dag) (start_date end_date : DT) : List DT :=
  if !dag.timetable.can_run then
    sortedDedupDT ((get_dagruns_between env dag.dag_id start_date end_date).map (·.execution_date))
  else if !dag.timetable.periodic then
    [start_date]
  else
    (dag.timetable.infos_between start_date end_date).map (·.logical_date)

/-- `_get_execution_dates` (airflow/api/common/mark_tasks.py, lines 283-308).
The latest-execution-date lookup happens first and its absence raises
unconditionally (the source reuses the "Received non-localized date" message
there); the end of the range is that latest date when `future` is set, else
the requested timestamp. -/
def _get_execution_dates (env : Env) (dag : Dag) (execution_date : DT) (future past : Bool) :
    Except MarkErr (List DT) :=
  match get_latest_execution_date env dag.dag_id with
  | none => .error (.valueError "Received non-localized date")
  | some latest_execution_date =>
    let end_date := coerceDT (if future then latest_execution_date else execution_date)
    .ok (execDatesCore env dag (startDateSel dag execution_date past) end_date)

/-- `DagRun.find(dag_id=..., execution_date=[...])`. -/
def dagRunFind (env : Env) (dag_id : String) (dates : List DT) : List DagRunRow :=
  env.dag_runs.filter (fun r => r.dag_id == dag_id && dates.contains r.execution_date)

/-- Modelled from the spec: `DAG.get_run_data_interval(run)` — the run's
recorded data interval. -/
def get_run_data_interval (run : DagRunRow) : Iv := run.data_interval

/-- Python `key in dict` over the interval-keyed run dictionary. -/
def assocHas (m : List (Iv × DagRunRow)) (k : Iv) : Bool := m.any (fun p => p.1 == k)

/-- Python dict write: overwrite the value in place, else append
(insertion order is kept). -/
def assocPut (m : List (Iv × DagRunRow)) (k : Iv) (v : DagRunRow) : List (Iv × DagRunRow) :=
  if assocHas m k then m.map (fun p => if p.1 == k then (k, v) else p) else m ++ [(k, v)]

/-- Modelled from the spec: `DAG.create_dagrun` — a fresh run row at the
given coordinates, `start_date = now`, `external_trigger = False`; the run id
is `{run_type}__{execution_date}` per `_create_dagruns`'s docstring. -/
def mkDagRun (now : DT) (dag_id : String) (info : RunInfo) (state run_type : String) :
    DagRunRow :=
  { dag_id := dag_id
    run_id := run_type ++ "__" ++ toString info.logical_date.val
    execution_date := info.logical_date
    data_interval := info.data_interval
    state := state
    run_type := run_type
    external_trigger := false
    start_date := some now }

/-- The per-interval step of `_create_dagruns`: skip an interval already in
the dictionary, else create its run (also collecting the created rows). -/
def createRunsStep (now : DT) (dag_id : String) (state run_type : String)
    (acc : List (Iv × DagRunRow) × List DagRunRow) (info : RunInfo) :
    List (Iv × DagRunRow) × List DagRunRow :=
  if assocHas acc.1 info.data_interval then acc
  else
    (assocPut acc.1 info.data_interval (mkDagRun now dag_id info state run_type),
     acc.2 ++ [mkDagRun now dag_id info state run_type])

/-- `_create_dagruns` (airflow/api/common/mark_tasks.py, lines 46-78): find
the runs already covering the requested intervals (keyed by data interval),
create the missing ones, and return the existing-or-created run for every
interval, together with the updated store. -/
def _create_dagruns (env : Env) (dag : Dag) (infos : List RunInfo) (state run_type : String) :
    List DagRunRow × Env :=
  let found := dagRunFind env dag.dag_id (infos.map (·.logical_date))
  let dict0 := found.foldl (fun m run => assocPut m (get_run_data_interval run) run) []
  let res := infos.foldl (createRunsStep env.now dag.dag_id state run_type) (dict0, [])
  (res.1.map (·.2), { env with dag_runs := env.dag_runs ++ res.2 })

/-- Modelled from the spec: `DagRun.verify_integrity`
(airflow/models/dagrun.py is not in src/): reconcile which task instances
should exist for the run's current task set, creating a stateless placeholder
(map_index -1) for each task of the dag that lacks a row in this run (per the
spec, the removed transition belongs to the Mapped Task Expander alone). -/
def verify_integrity_run (dag : Dag) (run : DagRunRow) (tis : List TIRow) : List TIRow :=
  tis ++ dag.tasks.filterMap (fun t =>
    if tis.any (fun ti =>
        ti.dag_id == run.dag_id && ti.task_id == t.task_id && ti.run_id == run.run_id)
    then none
    else some { dag_id := run.dag_id, task_id := t.task_id, run_id := run.run_id,
                map_index := -1 })

/-- `_verify_dag_run_integrity` (mark_tasks.py, lines 256-266): verify and
repair each run found at the requested dates and yield the confirmed
interval-derived infos. -/
def _verify_dag_run_integrity (env : Env) (dag : Dag) (dates : List DT) : List RunInfo × Env :=
  let runs := dagRunFind env dag.dag_id dates
  let tis := runs.foldl (fun tis run => verify_integrity_run dag run tis) env.tis
  (runs.map (fun run => runInfoOfInterval (get_run_data_interval run)),
   { env with tis := tis })

/-- Catalog lookup for a nested subdag. -/
def dagLookup (env : Env) (id : String) : Option Dag := env.dags.find? (fun d => d.dag_id == id)

/-- The stored name of a task-instance state (what the ORM writes into the
run row when `set_state` propagates the target state to a subdag run). -/
def tiStateName : TIState → String
  | .scheduled => "scheduled"
  | .queued => "queued"
  | .running => "running"
  | .upForRetry => "up_for_retry"
  | .upForReschedule => "up_for_reschedule"
  | .success => "success"
  | .failed => "failed"
  | .skipped => "skipped"
  | .removed => "removed"

/-- `dag_run.state = state; session.merge(dag_run)`: update the stored row. -/
def updateRunState (runs : List DagRunRow) (run : DagRunRow) (state : String) : List DagRunRow :=
  runs.map (fun r =>
    if r.dag_id == run.dag_id && r.run_id == run.run_id then { r with state := state } else r)

/-- One run of the `_verify_dagruns` loop: verify the subdag run's
integrity, and when committing set its state to the target. -/
def verifyDagrunsStep (subdag : Dag) (commit : Bool) (state : TIState)
    (env : Env) (run : DagRunRow) : Env :=
  let env' := { env with tis := verify_integrity_run subdag run env.tis }
  if commit then { env' with dag_runs := updateRunState env'.dag_runs run (tiStateName state) }
  else env'

/-- `_verify_dagruns` (mark_tasks.py, lines 232-253). -/
def _verify_dagruns (subdag : Dag) (runs : List DagRunRow) (commit : Bool) (state : TIState)
    (env : Env) : Env :=
  runs.foldl (verifyDagrunsStep subdag commit state) env

/-- One task id of the `_get_subdag_runs` inner loop: when the id names a
SubDagOperator of the current dag with a nested graph, materialize the nested
runs, verify them, and collect the subdag (for the stack) and its id. -/
def subdagSweepStep (state : TIState) (commit : Bool) (infos : List RunInfo) (current : Dag)
    (acc : List Dag × List String × Env) (task_id : String) : List Dag × List String × Env :=
  match current.tasks.find? (fun t => t.task_id == task_id) with
  | none => acc
  | some t =>
    if !t.is_subdag_op && t.task_type != "SubDagOperator" then acc
    else
      match t.subdag_id.bind (dagLookup acc.2.2) with
      | none => acc
      | some subdag =>
        let r := _create_dagruns acc.2.2 subdag infos "running" "backfill"
        (acc.1 ++ [subdag], acc.2.1 ++ [subdag.dag_id],
         _verify_dagruns subdag r.1 commit state r.2)

def subdagSweep (current : Dag) (state : TIState) (commit : Bool) (infos : List RunInfo)
    (task_ids : List String) (env : Env) : List Dag × List String × Env :=
  task_ids.foldl (subdagSweepStep state commit infos current) ([], [], env)

/-- The `while dags:` worklist of `_get_subdag_runs`, fuel-bounded. Python's
`dags.pop()` takes the most recently pushed dag, so newly discovered subdags
are pushed in front in reverse order. The fuel only matters for cyclic
subdag nesting, on which the source would not terminate either. -/
def subdagLoop (state : TIState) (commit : Bool) (infos : List RunInfo)
    (task_ids : List String) :
    Nat → List Dag → List String → Env → List String × Env
  | 0, _, acc, env => (acc, env)
  | _fuel+1, [], acc, env => (acc, env)
  | fuel+1, current :: stack, acc, env =>
    let r := subdagSweep current state commit infos task_ids env
    subdagLoop state commit infos task_ids fuel (r.1.reverse ++ stack) (acc ++ r.2.1) r.2.2

/-- `_get_subdag_runs` (mark_tasks.py, lines 193-229). -/
def _get_subdag_runs (env : Env) (dag : Dag) (state : TIState) (task_ids : List String)
    (commit : Bool) (infos : List RunInfo) : List String × Env :=
  subdagLoop state commit infos task_ids
    ((env.dags.length + 1) * (task_ids.length + 1) + 1) [dag] [] env

/-- Fixed-count iteration of a step function. -/
def iterateN (f : α → α) : Nat → α → α
  | 0, a => a
  | n+1, a => iterateN f n (f a)

/-- One step of the reachability walk over the dag's edge list: add every
direct neighbour (upstream or downstream) of the current front. -/
def stepReach (edges : List (String × String)) (up : Bool) (s : List String) : List String :=
  (s ++ edges.filterMap (fun e =>
    if up then (if s.contains e.2 then some e.1 else none)
    else (if s.contains e.1 then some e.2 else none))).dedup

/-- Modelled from the spec: `BaseOperator.get_flat_relatives` — the
transitive ancestors (`up = true`) or descendants of a task, by a directed
reachability walk over the task graph. The root itself is also returned;
`_find_task_relatives` always yields the task's own id anyway, so this only
duplicates an id that is already in the closure. -/
def flatRelativeIds (dag : Dag) (root : String) (up : Bool) : List String :=
  iterateN (stepReach dag.edges up) (dag.edges.length + 1) [root]

/-- `_find_task_relatives` (mark_tasks.py, lines 269-280). -/
def _find_task_relatives (dag : Dag) (tasks : List Task) (downstream upstream : Bool) :
    List String :=
  (tasks.map (fun t =>
    [t.task_id]
      ++ (if downstream then flatRelativeIds dag t.task_id false else [])
      ++ (if upstream then flatRelativeIds dag t.task_id true else []))).flatten

/-- The execution date of a task instance via its dag run
(`TaskInstance.dag_run` join / `execution_date` association proxy);
a row whose run is missing matches nothing. -/
def tiExecDate (runs : List DagRunRow) (ti : TIRow) : Option DT :=
  (runs.find? (fun r => r.dag_id == ti.dag_id && r.run_id == ti.run_id)).map (·.execution_date)

/-- `_get_all_dag_task_query` (mark_tasks.py, lines 171-190): main-dag task
instances at the confirmed dates, restricted to the task-id closure, whose
state is NULL or differs from the target. -/
def mainQueryPred (runs : List DagRunRow) (dag_id : String) (state : TIState)
    (task_ids : List String) (confirmed_dates : List DT) (ti : TIRow) : Bool :=
  ti.dag_id == dag_id &&
    (match tiExecDate runs ti with
     | some d => confirmed_dates.contains d
     | none => false) &&
    task_ids.contains ti.task_id &&
    (ti.state == none || ti.state != some state)

/-- `_all_subdag_tasks_query` (mark_tasks.py, lines 156-168): every task
instance of the touched subdags at the confirmed dates, state NULL or
different from the target (no task-id filter). -/
def subQueryPred (runs : List DagRunRow) (sub_dag_ids : List String) (state : TIState)
    (confirmed_dates : List DT) (ti : TIRow) : Bool :=
  sub_dag_ids.contains ti.dag_id &&
    (match tiExecDate runs ti with
     | some d => confirmed_dates.contains d
     | none => false) &&
    (ti.state == none || ti.state != some state)

/-- The commit-mode per-row mutation of `set_state` (lines 143-147): set the
state, and for finished targets stamp the end date and recompute the
duration. -/
def applyTarget (state : TIState) (now : DT) (ti : TIRow) : TIRow :=
  let ti' : TIRow := { ti with state := some state }
  if finishedStates.contains state then set_duration { ti' with end_date := some now }
  else ti'

/-- A run row with its stored state blanked, for stating that two
computations agree on everything except run states. -/
def eraseRunState (r : DagRunRow) : DagRunRow := { r with state := "" }

/-- Two environments that agree on the dag catalog, the task instances, the
clock, and the run rows up to stored run state. -/
def EnvSim (e1 e2 : Env) : Prop :=
  e1.dags = e2.dags ∧ e1.tis = e2.tis ∧ e1.now = e2.now ∧
    e1.dag_runs.map eraseRunState = e2.dag_runs.map eraseRunState

/-- The run-repair and subdag-propagation prefix of `set_state` (mark_tasks.py,
lines 125-135): verify the integrity of the runs at the computed dates, then
materialize and verify runs of every touched subdag. Returns the touched
subdag ids and the updated store. -/
def ssrPipeline (env : Env) (dag : Dag) (task_ids : List String) (dates : List DT)
    (state : TIState) (commit : Bool) : List String × Env :=
  let vres := _verify_dag_run_integrity env dag dates
  _get_subdag_runs vres.2 dag state task_ids commit vres.1

/-- The confirmed logical dates of `set_state` (mark_tasks.py, line 127). -/
def ssrConfirmed (env : Env) (dag : Dag) (dates : List DT) : List DT :=
  (_verify_dag_run_integrity env dag dates).1.map (·.logical_date)

/-- The candidate query of `set_state` (mark_tasks.py, lines 136-141): the
main-dag rows in the task closure plus, when subdags were touched, every row
of the touched subdags; both at the confirmed dates and not already at the
target state. -/
def ssrCands (env : Env) (dag : Dag) (task_ids : List String) (dates : List DT)
    (state : TIState) (commit : Bool) : List TIRow :=
  let sres := ssrPipeline env dag task_ids dates state commit
  let confirmed := ssrConfirmed env dag dates
  sres.2.tis.filter (mainQueryPred sres.2.dag_runs dag.dag_id state task_ids confirmed)
    ++ sres.2.tis.filter (fun ti => !sres.1.isEmpty &&
        subQueryPred sres.2.dag_runs sres.1 state confirmed ti)

/-- The body of `set_state` after its input validation (mark_tasks.py, lines
125-153): verify-and-repair the runs at the computed dates, materialize and
propagate into subdag runs, query the candidate set, and for a commit lock
and mutate exactly that set. -/
def setStateResolved (env : Env) (dag : Dag) (task_ids : List String) (dates : List DT)
    (state : TIState) (commit : Bool) : List TIRow × Env :=
  let sres := ssrPipeline env dag task_ids dates state commit
  let confirmed := ssrConfirmed env dag dates
  let cands := ssrCands env dag task_ids dates state commit
  if commit then
    (cands.map (applyTarget state sres.2.now),
     { sres.2 with tis := sres.2.tis.map (fun ti =>
         if mainQueryPred sres.2.dag_runs dag.dag_id state task_ids confirmed ti
            || (!sres.1.isEmpty && subQueryPred sres.2.dag_runs sres.1 state confirmed ti)
         then applyTarget state sres.2.now ti else ti) })
  else
    (cands, sres.2)

/-- `set_state` (airflow/api/common/mark_tasks.py, lines 81-153). `tasks`
pairs each task with the dag object its `task.dag` attribute holds (DAG set
membership is modelled by dag id). Returns the affected task instances (the
candidate set, mutated when committing) and the updated environment. -/
def set_state (env : Env) (tasks : List (Task × Option Dag)) (execution_date : DT)
    (upstream downstream future past : Bool) (state : TIState) (commit : Bool) :
    Except MarkErr (List TIRow × Env) :=
  if tasks.isEmpty then .ok ([], env)
  else if !execution_date.aware then .error (.valueError "Received non-localized date")
  else if 1 < ((tasks.map (fun p => p.2.map (·.dag_id))).dedup).length then
    .error (.valueError "Received tasks from multiple DAGs")
  else
    match tasks.head? with
    | none => .ok ([], env)
    | some hd =>
      match hd.2 with
      | none => .error (.valueError "Received tasks with no DAG")
      | some dag =>
        match _get_execution_dates env dag execution_date future past with
        | .error e => .error e
        | .ok dates =>
          .ok (setStateResolved env dag
            (_find_task_relatives dag (tasks.map (·.1)) downstream upstream)
            dates state commit)

/-- A simple periodic timetable for the witnesses: one boundary per request,
covering the whole `[start, end]` range. -/
def exTimetable : Timetable :=
  { can_run := true
    periodic := true
    infos_between := fun s e => [runInfoOfInterval { ivStart := s, ivEnd := e }] }

/-- A one-task dag used by the mark-tasks witnesses. -/
def exDag : Dag :=
  { dag_id := "dag1", tasks := [{ task_id := "a" }], edges := [], timetable := exTimetable }

/-- A run of `exDag` at instant 5. -/
def exRun : DagRunRow :=
  { dag_id := "dag1", run_id := "sched__5", execution_date := { val := 5 }
    data_interval := { ivStart := { val := 5 }, ivEnd := { val := 6 } }
    state := "success", run_type := "scheduled" }

/-- An environment holding `exDag`, one run, and one task instance. -/
def exEnv : Env :=
  { dags := [exDag]
    dag_runs := [exRun]
    tis := [{ dag_id := "dag1", task_id := "a", run_id := "sched__5", map_index := -1 }]
    now := { val := 100 } }

/-- The same environment with no runs at all. -/
def exEmptyEnv : Env := { dags := [exDag], dag_runs := [], tis := [], now := { val := 100 } }

/-- The sole task of `exDag`, as handed to `set_state`. -/
def exTaskA : Task := { task_id := "a" }

/-- The candidate set of the C3 dry run over `exEnv`: its single stored
instance (NULL state, at the confirmed date). -/
def exC3Cands : List TIRow :=
  [{ dag_id := "dag1", task_id := "a", run_id := "sched__5", map_index := -1 }]

/-- The store after the C3 dry run: identical to `exEnv` (the repair
pipeline finds nothing to create). -/
def exC3Env1 : Env :=
  { dags := [exDag], dag_runs := [exRun], tis := exC3Cands, now := { val := 100 } }

/-- Two disjoint intervals to materialize. -/
def exInfos : List RunInfo :=
  [ { logical_date := { val := 1 }, data_interval := { ivStart := { val := 1 }, ivEnd := { val := 2 } } },
    { logical_date := { val := 2 }, data_interval := { ivStart := { val := 2 }, ivEnd := { val := 3 } } } ]

/-! ## Concrete stores used by witnesses and counterexamples -/

/-- A finished upstream (mapping-producing) task instance. -/
def exUp : TIRow :=
  { dag_id := "d", task_id := "u", run_id := "r", map_index := -1, state := some .success }

/-- A fresh run: unexpanded placeholder for task `t`, recorded length 3. -/
def exPlaceholderDb : MapDb :=
  { tis := [{ dag_id := "d", task_id := "t", run_id := "r", map_index := -1 }]
    task_maps := [{ dag_id := "d", task_id := "u", run_id := "r", map_index := -1, length := 3 }] }

/-- What expanding `exPlaceholderDb` returns: indexes 0, 1, 2, stateless. -/
def exPlaceholderRet : List TIRow :=
  [ { dag_id := "d", task_id := "t", run_id := "r", map_index := 0 },
    { dag_id := "d", task_id := "t", run_id := "r", map_index := 1 },
    { dag_id := "d", task_id := "t", run_id := "r", map_index := 2 } ]

/-- The store after expanding `exPlaceholderDb`. -/
def exPlaceholderDb2 : MapDb :=
  { tis := exPlaceholderRet, task_maps := exPlaceholderDb.task_maps }

/-- A run already expanded once to a single finished index 0, with the
upstream length now recorded as 2. -/
def exGrownDb : MapDb :=
  { tis := [{ dag_id := "d", task_id := "t", run_id := "r", map_index := 0,
              state := some .success }]
    task_maps := [{ dag_id := "d", task_id := "u", run_id := "r", map_index := -1, length := 2 }] }

/-- A fresh run whose upstream recorded a negative resolved length. -/
def exNegDb : MapDb :=
  { tis := [{ dag_id := "d", task_id := "t", run_id := "r", map_index := -1 }]
    task_maps := [{ dag_id := "d", task_id := "u", run_id := "r", map_index := -1, length := -1 }] }

/-- A fresh run whose upstream recorded a zero resolved length. -/
def exZeroDb : MapDb :=
  { tis := [{ dag_id := "d", task_id := "t", run_id := "r", map_index := -1 }]
    task_maps := [{ dag_id := "d", task_id := "u", run_id := "r", map_index := -1, length := 0 }] }

/-- A store with no TaskMap row at all. -/
def exMissingDb : MapDb := { tis := [], task_maps := [] }

/-- A clock instant for the history and mark-tasks witnesses. -/
def exNow : DT := { val := 100 }

/-- A running task instance about to be recorded to history. -/
def exRunTI : TIRow :=
  { dag_id := "d", task_id := "t", run_id := "r", map_index := -1,
    state := some .running, start_date := some { val := 50 } }

/-- A history row with the same key as `exRunTI`. -/
def exHistRow : HistRow :=
  { dag_id := "d", task_id := "t", run_id := "r", map_index := -1, try_number := 0,
    state := some .success, start_date := none, end_date := none, duration := none }

/-! ## Lemmas about the mapped-task expander -/

theorem mkExpTI_map_index (d t r : String) (st : Option TIState) (i : Int) :
    (mkExpTI d t r st i).map_index = i := rfl

theorem intRange_mem {a b x : Int} : x ∈ intRange a b ↔ a ≤ x ∧ x < b := by
  simp only [intRange, List.mem_map, List.mem_range]
  constructor
  · rintro ⟨i, hi, rfl⟩
    omega
  · rintro ⟨h1, h2⟩
    exact ⟨(x - a).toNat, by omega, by omega⟩

theorem intRange_nodup (a b : Int) : (intRange a b).Nodup := by
  refine List.Nodup.map ?_ (List.nodup_range _)
  intro x y h
  dsimp only at h
  omega

theorem intRange_pairwise_lt (a b : Int) : (intRange a b).Pairwise (· < ·) := by
  refine List.Pairwise.map _ ?_ (List.pairwise_lt_range _)
  intro x y h
  dsimp only
  omega

theorem intRange_eq_nil {a b : Int} (h : b ≤ a) : intRange a b = [] := by
  simp only [intRange]
  have : (b - a).toNat = 0 := by omega
  rw [this]
  rfl

theorem intRange_cons {a b : Int} (h : a < b) : intRange a b = a :: intRange (a + 1) b := by
  simp only [intRange]
  have hn : (b - a).toNat = (b - (a + 1)).toNat + 1 := by omega
  rw [hn, List.range_succ_eq_map, List.map_cons, List.map_map]
  refine congrArg₂ List.cons (by simp) (List.map_congr_left ?_)
  intro i _
  simp only [Function.comp_apply, Nat.succ_eq_add_one]
  push_cast
  ring

theorem intRange_zero_cons {n : Int} (h : 1 ≤ n) : (0 : Int) :: intRange 1 n = intRange 0 n := by
  rw [intRange_cons (by omega : (0 : Int) < n)]
  norm_num

theorem intRange_map_map_index (d t r : String) (st : Option TIState) (a b : Int) :
    ((intRange a b).map (mkExpTI d t r st)).map TIRow.map_index = intRange a b := by
  rw [List.map_map]
  exact List.map_congr_left (fun i _ => rfl) |>.trans (List.map_id _)

theorem expandFold_fst (d t r : String) (st : Option TIState) :
    ∀ (idxs : List Int) (l0 t0 : List TIRow),
      (idxs.foldl (expandStep d t r st) (l0, t0)).1 = l0 ++ idxs.map (mkExpTI d t r st)
  | [], l0, t0 => by simp
  | i :: idxs, l0, t0 => by
    simp only [List.foldl_cons, expandStep, List.map_cons]
    rw [expandFold_fst d t r st idxs]
    simp

theorem tiKeyEq_true_iff (a b : TIRow) :
    tiKeyEq a b = true ↔
      (a.dag_id = b.dag_id ∧ a.task_id = b.task_id ∧ a.run_id = b.run_id ∧
        a.map_index = b.map_index) := by
  simp [tiKeyEq, and_assoc]

theorem mergeTI_append {tis : List TIRow} {x : TIRow}
    (h : ∀ ti ∈ tis, tiKeyEq x ti = false) : mergeTI tis x = tis ++ [x] := by
  have hany : tis.any (tiKeyEq x) = false := by
    rw [List.any_eq_false]
    intro ti hti
    simp [h ti hti]
  simp [mergeTI, hany]

theorem expandFold_snd (d t r : String) (st : Option TIState) :
    ∀ (idxs : List Int) (l0 t0 : List TIRow),
      (∀ i ∈ idxs, ∀ ti ∈ t0,
        ¬(ti.dag_id = d ∧ ti.task_id = t ∧ ti.run_id = r ∧ ti.map_index = i)) →
      idxs.Nodup →
      (idxs.foldl (expandStep d t r st) (l0, t0)).2 = t0 ++ idxs.map (mkExpTI d t r st)
  | [], l0, t0, _, _ => by simp
  | i :: idxs, l0, t0, hfresh, hnodup => by
    simp only [List.foldl_cons, expandStep, List.map_cons]
    have hmerge : mergeTI t0 (mkExpTI d t r st i) = t0 ++ [mkExpTI d t r st i] := by
      refine mergeTI_append ?_
      intro ti hti
      have hno := hfresh i (by simp) ti hti
      rw [← Bool.not_eq_true]
      intro hkey
      rw [tiKeyEq_true_iff] at hkey
      exact hno ⟨hkey.1.symm, hkey.2.1.symm, hkey.2.2.1.symm, hkey.2.2.2.symm⟩
    rw [hmerge, expandFold_snd d t r st idxs _ _ ?_ (List.Nodup.of_cons hnodup)]
    · simp
    · intro j hj ti hti
      rcases List.mem_append.1 hti with h0 | h1
      · exact hfresh j (by simp [hj]) ti h0
      · have hji : ti = mkExpTI d t r st i := by simpa using h1
        subst hji
        rintro ⟨-, -, -, hmi⟩
        rw [mkExpTI_map_index] at hmi
        refine (List.nodup_cons.1 hnodup).1 ?_
        rw [hmi]
        exact hj

theorem listMaxInt_eq_none {l : List Int} : listMaxInt l = none ↔ l = [] := by
  cases l with
  | nil => simp [listMaxInt]
  | cons y ys =>
    simp only [listMaxInt]
    cases h : listMaxInt ys <;> simp

theorem listMaxInt_le : ∀ {l : List Int} {m : Int}, listMaxInt l = some m → ∀ x ∈ l, x ≤ m := by
  intro l
  induction l with
  | nil => intro m h; simp [listMaxInt] at h
  | cons y ys ih =>
    intro m h x hx
    simp only [listMaxInt] at h
    cases hys : listMaxInt ys with
    | none =>
      rw [hys] at h
      injection h with h
      subst h
      rcases List.mem_cons.1 hx with rfl | hmem
      · exact le_refl _
      · rw [listMaxInt_eq_none.1 hys] at hmem
        cases hmem
    | some m' =>
      rw [hys] at h
      injection h with h
      subst h
      rcases List.mem_cons.1 hx with rfl | hmem
      · exact le_max_left _ _
      · exact le_trans (ih hys x hmem) (le_max_right _ _)

theorem listMaxInt_mem : ∀ {l : List Int} {m : Int}, listMaxInt l = some m → m ∈ l := by
  intro l
  induction l with
  | nil => intro m h; simp [listMaxInt] at h
  | cons y ys ih =>
    intro m h
    simp only [listMaxInt] at h
    cases hys : listMaxInt ys with
    | none =>
      rw [hys] at h
      injection h with h
      subst h
      exact List.mem_cons_self _ _
    | some m' =>
      rw [hys] at h
      injection h with h
      rcases max_choice y m' with hc | hc <;> rw [hc] at h <;> subst h
      · exact List.mem_cons_self _ _
      · exact List.mem_cons_of_mem _ (ih hys)

theorem listMaxInt_eq_some : ∀ {l : List Int} {m : Int},
    m ∈ l → (∀ x ∈ l, x ≤ m) → listMaxInt l = some m := by
  intro l
  induction l with
  | nil => intro m h; cases h
  | cons y ys ih =>
    intro m hmem hub
    simp only [listMaxInt]
    cases hys : listMaxInt ys with
    | none =>
      have hnil : ys = [] := listMaxInt_eq_none.1 hys
      subst hnil
      simp only [List.mem_singleton] at hmem
      subst hmem
      rfl
    | some m' =>
      have hm'le : m' ≤ m := hub m' (List.mem_cons_of_mem _ (listMaxInt_mem hys))
      have hyle : y ≤ m := hub y (List.mem_cons_self _ _)
      rcases List.mem_cons.1 hmem with rfl | hmem'
      · exact congrArg some (max_eq_left hm'le)
      · have hmm' : m ≤ m' := listMaxInt_le hys m hmem'
        have hm'm : m' = m := le_antisymm hm'le hmm'
        subst hm'm
        exact congrArg some (max_eq_right hyle)

theorem maxMapIndex_le {tis : List TIRow} {d t r : String} {m : Int}
    (h : maxMapIndex tis d t r = some m) :
    ∀ ti ∈ tis, sameTaskRun d t r ti = true → ti.map_index ≤ m := by
  intro ti hmem hs
  refine listMaxInt_le h ti.map_index ?_
  simp only [List.mem_filterMap]
  exact ⟨ti, hmem, by simp [hs]⟩

theorem removeBeyond_eq_self {d t r : String} {n : Int} {tis : List TIRow}
    (h : ∀ ti ∈ tis, sameTaskRun d t r ti = true → ti.map_index < n) :
    removeBeyond d t r n tis = tis := by
  unfold removeBeyond
  refine (List.map_congr_left ?_).trans (List.map_id _)
  intro ti hti
  rcases hs : sameTaskRun d t r ti with - | -
  · simp [hs]
  · have := h ti hti hs
    simp [hs, this, not_le.2 this]

theorem isPlaceholderTI_mkExpTI_false {d r t : String} {st : Option TIState} {i : Int}
    (h : i ≠ -1) : isPlaceholderTI d r t (mkExpTI d t r st i) = false := by
  simp [isPlaceholderTI, mkExpTI, h]

/-- Reduct of `expand_mapped_task` on the skip branch: a unique unfinished
placeholder and a resolved length below one. -/
theorem expand_skip_eq {self : String} {up : TIRow} {db : MapDb} {n : Int} {pl : TIRow}
    (hfil : db.tis.filter (isPlaceholderTI up.dag_id up.run_id self) = [pl])
    (hlen : lookupTaskMapLength db up = some n) (hneg : n < 1) :
    expand_mapped_task self up db =
      .ok ([], { db with tis := db.tis.map (fun ti =>
        if isPlaceholderTI up.dag_id up.run_id self ti
        then { ti with state := some TIState.skipped } else ti) }) := by
  unfold expand_mapped_task
  rw [hlen]
  simp only [hfil, List.length_cons, List.length_nil, List.head?_cons]
  rw [if_neg (by omega), if_pos hneg]

/-- Reduct of `expand_mapped_task` on the re-key branch: a unique unfinished
placeholder and a positive resolved length. -/
theorem expand_rekey_eq {self : String} {up : TIRow} {db : MapDb} {n : Int} {pl : TIRow}
    (hfil : db.tis.filter (isPlaceholderTI up.dag_id up.run_id self) = [pl])
    (hlen : lookupTaskMapLength db up = some n) (hpos : 1 ≤ n) :
    expand_mapped_task self up db =
      .ok ({ pl with map_index := (0 : Int) } ::
            ((intRange 1 n).foldl (expandStep up.dag_id self up.run_id pl.state)
              ([], db.tis.map (fun ti =>
                if isPlaceholderTI up.dag_id up.run_id self ti
                then { pl with map_index := (0 : Int) } else ti))).1,
           { db with tis := (removeBeyond up.dag_id self up.run_id n
              ((intRange 1 n).foldl (expandStep up.dag_id self up.run_id pl.state)
                ([], db.tis.map (fun ti =>
                  if isPlaceholderTI up.dag_id up.run_id self ti
                  then { pl with map_index := (0 : Int) } else ti))).2) }) := by
  unfold expand_mapped_task
  rw [hlen]
  simp only [hfil, List.length_cons, List.length_nil, List.head?_cons]
  rw [if_neg (by omega), if_neg (by omega)]

/-- Reduct of `expand_mapped_task` on the grow-forward branch: no unfinished
placeholder, a recorded maximum map index. -/
theorem expand_grow_eq {self : String} {up : TIRow} {db : MapDb} {n m : Int}
    (hfil : db.tis.filter (isPlaceholderTI up.dag_id up.run_id self) = [])
    (hlen : lookupTaskMapLength db up = some n)
    (hmax : maxMapIndex db.tis up.dag_id self up.run_id = some m) :
    expand_mapped_task self up db =
      .ok (((intRange (m + 1) n).foldl (expandStep up.dag_id self up.run_id none)
              ([], db.tis)).1,
           { db with tis := (removeBeyond up.dag_id self up.run_id n
              ((intRange (m + 1) n).foldl (expandStep up.dag_id self up.run_id none)
                ([], db.tis)).2) }) := by
  unfold expand_mapped_task
  rw [hlen]
  simp only [hfil, List.length_nil, List.head?_nil]
  rw [if_neg (by omega)]
  rw [hmax]

/-! ## Claim C1 -/

/-- **C1** (amended): for an ok expansion with resolved length `N`, the
returned sequence is strictly ascending by map index; when the unfinished
placeholder exists (and `N ≥ 1`) it contains a task instance for every map
index `0..N-1` — the reused placeholder re-keyed to 0 followed by newly
created rows; when it does not, it contains exactly the newly created map
indexes, those strictly above the previous maximum up to `N-1`. -/
theorem expand_return_sequence_characterization
    (self : String) (up : TIRow) (db : MapDb) (n : Int) (ret : List TIRow) (db' : MapDb)
    (hok : expand_mapped_task self up db = .ok (ret, db'))
    (hlen : lookupTaskMapLength db up = some n) :
    (ret.map TIRow.map_index).Pairwise (· < ·) ∧
    (∀ pl, db.tis.filter (isPlaceholderTI up.dag_id up.run_id self) = [pl] → 1 ≤ n →
        ret.map TIRow.map_index = intRange 0 n ∧
        ret.head? = some { pl with map_index := (0 : Int) }) ∧
    (∀ m, db.tis.filter (isPlaceholderTI up.dag_id up.run_id self) = [] →
        maxMapIndex db.tis up.dag_id self up.run_id = some m →
        ret.map TIRow.map_index = intRange (m + 1) n) := by
  rcases hfil : db.tis.filter (isPlaceholderTI up.dag_id up.run_id self) with - | ⟨pl, rest⟩
  · rcases hmax : maxMapIndex db.tis up.dag_id self up.run_id with - | m
    · exfalso
      unfold expand_mapped_task at hok
      rw [hlen] at hok
      simp only [hfil, List.length_nil, List.head?_nil] at hok
      rw [if_neg (by omega)] at hok
      rw [hmax] at hok
      cases hok
    · have heq := expand_grow_eq hfil hlen hmax
      rw [heq] at hok
      injection hok with hpair
      rw [Prod.mk.injEq] at hpair
      obtain ⟨h1, h2⟩ := hpair
      subst h1
      refine ⟨?_, ?_, ?_⟩
      · rw [expandFold_fst, List.nil_append, intRange_map_map_index]
        exact intRange_pairwise_lt _ _
      · intro pl h hn
        cases h
      · intro m' hfil' hmax'
        injection hmax' with hmax'
        subst hmax'
        rw [expandFold_fst, List.nil_append, intRange_map_map_index]
  · rcases rest with - | ⟨pl2, rest2⟩
    · by_cases hn : n < 1
      · have heq := expand_skip_eq hfil hlen hn
        rw [heq] at hok
        injection hok with hpair
        rw [Prod.mk.injEq] at hpair
        obtain ⟨h1, h2⟩ := hpair
        subst h1
        refine ⟨by simp, ?_, ?_⟩
        · intro pl' h h1
          omega
        · intro m h _
          cases h
      · have hpos : 1 ≤ n := by omega
        have heq := expand_rekey_eq hfil hlen hpos
        rw [heq] at hok
        injection hok with hpair
        rw [Prod.mk.injEq] at hpair
        obtain ⟨h1, h2⟩ := hpair
        subst h1
        refine ⟨?_, ?_, ?_⟩
        · rw [List.map_cons, expandFold_fst, List.nil_append, intRange_map_map_index]
          have hmi : ({ pl with map_index := (0 : Int) } : TIRow).map_index = (0 : Int) := rfl
          rw [hmi, intRange_zero_cons hpos]
          exact intRange_pairwise_lt _ _
        · intro pl' h h1
          injection h with hp hr
          subst hp
          constructor
          · rw [List.map_cons, expandFold_fst, List.nil_append, intRange_map_map_index]
            have hmi : ({ pl with map_index := (0 : Int) } : TIRow).map_index = (0 : Int) := rfl
            rw [hmi]
            exact intRange_zero_cons hpos
          · rfl
        · intro m h _
          cases h
    · exfalso
      unfold expand_mapped_task at hok
      rw [hlen] at hok
      simp only [hfil] at hok
      rw [if_pos (by simp only [List.length_cons]; omega)] at hok
      cases hok

/-- Witness for C1 at a concrete store: a fresh placeholder run with
resolved length 3 yields exactly the ascending indexes 0, 1, 2. -/
theorem expand_return_sequence_characterization_witness :
    (exPlaceholderRet.map TIRow.map_index).Pairwise (· < ·) ∧
    exPlaceholderRet.map TIRow.map_index = intRange 0 3 := by
  have h := expand_return_sequence_characterization "t" exUp exPlaceholderDb 3
    exPlaceholderRet exPlaceholderDb2 rfl (by decide)
  exact ⟨h.1,
    (h.2.1 { dag_id := "d", task_id := "t", run_id := "r", map_index := -1 }
      (by decide) (by decide)).1⟩

/-- Counterexample for C1 as stated: with resolved length 2 but no
unfinished placeholder (index 0 already materialized and finished), the
returned sequence is `[1]` — it does not contain every index `0..N-1`. -/
theorem expand_return_missing_low_indexes_cex :
    lookupTaskMapLength exGrownDb exUp = some 2 ∧
    (expand_mapped_task "t" exUp exGrownDb).toOption.map (fun p => p.1.map TIRow.map_index)
      = some [1] := by decide

/-! ## Claim C2 -/

/-- **C2** (amended): expansion raises whenever the upstream TaskMap row is
absent; a negative resolved length does NOT raise — it is handled exactly
like zero: with a unique unfinished placeholder the placeholder is skipped,
nothing is created, and the call returns empty without error. -/
theorem expand_missing_taskmap_and_negative_length :
    (∀ (self : String) (up : TIRow) (db : MapDb),
        lookupTaskMapLength db up = none →
        expand_mapped_task self up db = .error .upstreamNotFound) ∧
    (∀ (self : String) (up : TIRow) (db : MapDb) (n : Int) (pl : TIRow),
        lookupTaskMapLength db up = some n → n < 0 →
        db.tis.filter (isPlaceholderTI up.dag_id up.run_id self) = [pl] →
        expand_mapped_task self up db =
          .ok ([], { db with tis := db.tis.map (fun ti =>
            if isPlaceholderTI up.dag_id up.run_id self ti
            then { ti with state := some TIState.skipped } else ti) })) := by
  constructor
  · intro self up db h
    unfold expand_mapped_task
    rw [h]
  · intro self up db n pl hlen hneg hfil
    exact expand_skip_eq hfil hlen (by omega)

/-- Witness for C2: the missing-TaskMap store raises, and the negative-length
store returns ok with the placeholder skipped. -/
theorem expand_missing_taskmap_and_negative_length_witness :
    expand_mapped_task "t" exUp exMissingDb = .error .upstreamNotFound ∧
    expand_mapped_task "t" exUp exNegDb =
      .ok ([], { exNegDb with tis := exNegDb.tis.map (fun ti =>
        if isPlaceholderTI exUp.dag_id exUp.run_id "t" ti
        then { ti with state := some TIState.skipped } else ti) }) :=
  ⟨expand_missing_taskmap_and_negative_length.1 "t" exUp exMissingDb (by decide),
   expand_missing_taskmap_and_negative_length.2 "t" exUp exNegDb (-1)
     { dag_id := "d", task_id := "t", run_id := "r", map_index := -1 }
     (by decide) (by decide) (by decide)⟩

/-- Counterexample for C2 as stated: a negative resolved length (-1) does not
fail fast — the call returns ok. -/
theorem expand_negative_length_no_error_cex :
    lookupTaskMapLength exNegDb exUp = some (-1) ∧
    (expand_mapped_task "t" exUp exNegDb).isOk = true := by decide

/-! ## Claim C4 -/

/-- **C4**: once a run is expanded (no unfinished placeholder; recorded
maximum map index `m`), a call with `N ≥ m+1` keeps every existing row
bit-identical (nothing below the previous maximum is removed or re-created)
and only appends the stateless rows `m+1..N-1`, re-establishing the same
shape with maximum `N-1`; a call with `N ≤ m` creates nothing and transitions
exactly the rows of this task and run with map index `≥ N` (that is, those in
`[N, m]`) to removed, leaving every other row — in particular all of
`[0, N)` — unchanged. -/
theorem expand_monotonic_grow_shrink
    (self : String) (up : TIRow) (db : MapDb) (n m : Int)
    (hfil : db.tis.filter (isPlaceholderTI up.dag_id up.run_id self) = [])
    (hlen : lookupTaskMapLength db up = some n)
    (hmax : maxMapIndex db.tis up.dag_id self up.run_id = some m)
    (hm : -1 ≤ m) :
    (m + 1 ≤ n →
      expand_mapped_task self up db =
        .ok ((intRange (m + 1) n).map (mkExpTI up.dag_id self up.run_id none),
             { db with tis := db.tis ++ (intRange (m + 1) n).map (mkExpTI up.dag_id self up.run_id none) }) ∧
      maxMapIndex (db.tis ++ (intRange (m + 1) n).map (mkExpTI up.dag_id self up.run_id none))
          up.dag_id self up.run_id = some (n - 1) ∧
      (db.tis ++ (intRange (m + 1) n).map (mkExpTI up.dag_id self up.run_id none)).filter
          (isPlaceholderTI up.dag_id up.run_id self) = []) ∧
    (n ≤ m →
      expand_mapped_task self up db =
        .ok ([], { db with tis := removeBeyond up.dag_id self up.run_id n db.tis }) ∧
      (∀ ti ∈ db.tis, sameTaskRun up.dag_id self up.run_id ti = true → n ≤ ti.map_index →
          { ti with state := some TIState.removed } ∈
            removeBeyond up.dag_id self up.run_id n db.tis) ∧
      (∀ ti ∈ db.tis, (sameTaskRun up.dag_id self up.run_id ti = false ∨ ti.map_index < n) →
          ti ∈ removeBeyond up.dag_id self up.run_id n db.tis)) := by
  have hub := maxMapIndex_le hmax
  constructor
  · intro hmn
    have hfold2 : ((intRange (m + 1) n).foldl (expandStep up.dag_id self up.run_id none)
        ([], db.tis)).2 = db.tis ++ (intRange (m + 1) n).map (mkExpTI up.dag_id self up.run_id none) := by
      refine expandFold_snd up.dag_id self up.run_id none _ _ _ ?_ (intRange_nodup _ _)
      intro i hi ti hti
      rintro ⟨e1, e2, e3, e4⟩
      have hs : sameTaskRun up.dag_id self up.run_id ti = true := by
        simp [sameTaskRun, e1, e2, e3]
      have h1 := hub ti hti hs
      have h2 := intRange_mem.1 hi
      omega
    have hlt : ∀ ti ∈ db.tis ++ (intRange (m + 1) n).map (mkExpTI up.dag_id self up.run_id none),
        sameTaskRun up.dag_id self up.run_id ti = true → ti.map_index < n := by
      intro ti hti hs
      rcases List.mem_append.1 hti with h0 | h1
      · have := hub ti h0 hs
        omega
      · obtain ⟨i, hi, rfl⟩ := List.mem_map.1 h1
        rw [mkExpTI_map_index]
        exact (intRange_mem.1 hi).2
    have heq := expand_grow_eq hfil hlen hmax
    rw [expandFold_fst, List.nil_append, hfold2, removeBeyond_eq_self hlt] at heq
    refine ⟨heq, ?_, ?_⟩
    · unfold maxMapIndex
      refine listMaxInt_eq_some ?_ ?_
      · rw [List.filterMap_append, List.mem_append]
        by_cases hc : m + 1 = n
        · left
          have hmax' : listMaxInt (db.tis.filterMap (fun ti =>
              if sameTaskRun up.dag_id self up.run_id ti then some ti.map_index else none))
              = some m := hmax
          have hm' : n - 1 = m := by omega
          rw [hm']
          exact listMaxInt_mem hmax'
        · right
          refine List.mem_filterMap.2 ?_
          refine ⟨mkExpTI up.dag_id self up.run_id none (n - 1), ?_, ?_⟩
          · exact List.mem_map_of_mem _ (intRange_mem.2 ⟨by omega, by omega⟩)
          · simp [sameTaskRun, mkExpTI]
      · intro x hx
        rw [List.filterMap_append, List.mem_append] at hx
        rcases hx with h0 | h1
        · obtain ⟨ti, hti, hfx⟩ := List.mem_filterMap.1 h0
          rcases hs : sameTaskRun up.dag_id self up.run_id ti with - | -
          · rw [hs] at hfx
            cases hfx
          · rw [hs] at hfx
            injection hfx with hfx
            have := hub ti hti hs
            omega
        · obtain ⟨ti, hti, hfx⟩ := List.mem_filterMap.1 h1
          obtain ⟨i, hi, rfl⟩ := List.mem_map.1 hti
          have hs : sameTaskRun up.dag_id self up.run_id (mkExpTI up.dag_id self up.run_id none i)
              = true := by simp [sameTaskRun, mkExpTI]
          rw [hs] at hfx
          injection hfx with hfx
          have := (intRange_mem.1 hi).2
          rw [mkExpTI_map_index] at hfx
          omega
    · rw [List.filter_append, hfil, List.nil_append]
      rw [List.filter_eq_nil_iff]
      intro ti hti
      obtain ⟨i, hi, rfl⟩ := List.mem_map.1 hti
      have hne : i ≠ -1 := by
        have := (intRange_mem.1 hi).1
        omega
      simp [isPlaceholderTI_mkExpTI_false hne]
  · intro hnm
    have hempty : intRange (m + 1) n = [] := intRange_eq_nil (by omega)
    have heq := expand_grow_eq hfil hlen hmax
    rw [hempty] at heq
    simp only [List.foldl_nil] at heq
    refine ⟨heq, ?_, ?_⟩
    · intro ti hti hs hn
      have hmem := List.mem_map_of_mem (fun ti : TIRow =>
        if sameTaskRun up.dag_id self up.run_id ti && decide (n ≤ ti.map_index)
        then { ti with state := some TIState.removed } else ti) hti
      simpa [removeBeyond, hs, hn] using hmem
    · intro ti hti hcond
      have hmem := List.mem_map_of_mem (fun ti : TIRow =>
        if sameTaskRun up.dag_id self up.run_id ti && decide (n ≤ ti.map_index)
        then { ti with state := some TIState.removed } else ti) hti
      rcases hcond with hs | hlt2
      · simpa [removeBeyond, hs] using hmem
      · simpa [removeBeyond, hlt2, not_le.2 hlt2] using hmem

/-- Witness for C4 at a concrete store: growing an expanded run (maximum
index 0) to length 2 appends exactly index 1, keeping index 0 untouched. -/
theorem expand_monotonic_grow_shrink_witness :
    expand_mapped_task "t" exUp exGrownDb =
      .ok ((intRange 1 2).map (mkExpTI "d" "t" "r" none),
           { exGrownDb with tis := exGrownDb.tis ++ (intRange 1 2).map (mkExpTI "d" "t" "r" none) }) :=
  ((expand_monotonic_grow_shrink "t" exUp exGrownDb 2 0 (by decide) (by decide) (by decide)
    (by decide)).1 (by decide)).1

/-! ## Claim C5 -/

/-- **C5**: with resolved length 0 and a (unique) still-unfinished
placeholder, expansion returns an empty sequence, transitions exactly the
placeholder to skipped (it keeps map index -1), and creates no new rows. -/
theorem expand_zero_length_skip
    (self : String) (up : TIRow) (db : MapDb) (pl : TIRow)
    (hlen : lookupTaskMapLength db up = some 0)
    (hfil : db.tis.filter (isPlaceholderTI up.dag_id up.run_id self) = [pl]) :
    expand_mapped_task self up db =
      .ok ([], { db with tis := db.tis.map (fun ti =>
        if isPlaceholderTI up.dag_id up.run_id self ti
        then { ti with state := some TIState.skipped } else ti) }) ∧
    (db.tis.map (fun ti =>
        if isPlaceholderTI up.dag_id up.run_id self ti
        then { ti with state := some TIState.skipped } else ti)).length = db.tis.length ∧
    pl.map_index = -1 ∧
    { pl with state := some TIState.skipped } ∈ db.tis.map (fun ti =>
        if isPlaceholderTI up.dag_id up.run_id self ti
        then { ti with state := some TIState.skipped } else ti) := by
  have hmemf : pl ∈ db.tis.filter (isPlaceholderTI up.dag_id up.run_id self) := by
    rw [hfil]
    simp
  have hph : isPlaceholderTI up.dag_id up.run_id self pl = true := List.of_mem_filter hmemf
  have hmem0 : pl ∈ db.tis := List.mem_of_mem_filter hmemf
  refine ⟨expand_skip_eq hfil hlen (by omega), by simp, ?_, ?_⟩
  · have hph' := hph
    simp only [isPlaceholderTI, Bool.and_eq_true, beq_iff_eq] at hph'
    exact hph'.1.2
  · have hmem := List.mem_map_of_mem (fun ti : TIRow =>
      if isPlaceholderTI up.dag_id up.run_id self ti
      then { ti with state := some TIState.skipped } else ti) hmem0
    simpa [hph] using hmem

/-- Witness for C5 at a concrete store: zero-length mapping on a fresh run
skips the placeholder in place and returns empty. -/
theorem expand_zero_length_skip_witness :
    expand_mapped_task "t" exUp exZeroDb =
      .ok ([], { exZeroDb with tis := exZeroDb.tis.map (fun ti =>
        if isPlaceholderTI exUp.dag_id exUp.run_id "t" ti
        then { ti with state := some TIState.skipped } else ti) }) :=
  (expand_zero_length_skip "t" exUp exZeroDb
    { dag_id := "d", task_id := "t", run_id := "r", map_index := -1 }
    (by decide) (by decide)).1

/-! ## Sensor-loop lemmas -/

/-- Under `ignore_error` with an always-generic-raising criteria, the loop
keeps poking and ends in a hard sensor timeout as soon as the elapsed time
exceeds the configured timeout within the available fuel. -/
theorem sensorExecute_ignore_eventual_timeout (timeout : ℚ) (poke : Nat → PokeOutcome)
    (elapsed : Nat → ℚ) (hp : ∀ i, poke i = PokeOutcome.errGeneric) :
    ∀ (fuel k : Nat), (∃ i, i < fuel ∧ timeout < elapsed (k + i)) →
      sensorExecute .ignore_error false timeout poke elapsed fuel k = .sensorTimeout := by
  intro fuel
  induction fuel with
  | zero =>
    rintro k ⟨i, hi, -⟩
    omega
  | succ f ih =>
    rintro k ⟨i, hi, hgt⟩
    simp only [sensorExecute, hp k]
    by_cases hk : timeout < elapsed k
    · simp [hk]
    · have hi0 : i ≠ 0 := by
        intro h0
        subst h0
        exact hk (by simpa using hgt)
      simp only [hk, if_false]
      simp only [Bool.false_eq_true, if_false]
      exact ih (k + 1) ⟨i - 1, by omega, by rw [show k + 1 + (i - 1) = k + i by omega]; exact hgt⟩

/-- With a criteria that never reports done, no policy/fuel/start can make
the loop succeed. -/
theorem sensorExecute_no_silent_success (timeout : ℚ) (poke : Nat → PokeOutcome)
    (elapsed : Nat → ℚ) (hp : ∀ i, poke i = PokeOutcome.errGeneric) :
    ∀ (policy : FailPolicy) (f k : Nat),
      sensorExecute policy false timeout poke elapsed f k ≠ .success := by
  intro policy f
  induction f with
  | zero =>
    intro k h
    simp [sensorExecute] at h
  | succ f ih =>
    intro k h
    simp only [sensorExecute, hp k] at h
    cases policy with
    | none => simp at h
    | skip_on_any_error => simp at h
    | skip_on_timeout => simp at h
    | ignore_error =>
      by_cases hk : timeout < elapsed k
      · rw [if_pos hk] at h
        rw [if_neg (by intro hc; cases hc)] at h
        cases h
      · rw [if_neg hk, if_neg (by simp)] at h
        exact ih (k + 1) h

/-! ## Claim C6 -/

/-- **C6**: with a criteria that always raises a generic (non-timeout-class)
exception, the blocking poke loop propagates under `none`, skips under
`skip_on_any_error`, propagates under `skip_on_timeout`, and under
`ignore_error` keeps poking until the elapsed time exceeds the timeout and
then raises the hard sensor-timeout failure; and (never-silent-success) no
policy, fuel, or start index makes such a loop succeed. -/
theorem sensor_fail_policy_matrix
    (timeout : ℚ) (poke : Nat → PokeOutcome) (elapsed : Nat → ℚ) (fuel j : Nat)
    (hp : ∀ i, poke i = PokeOutcome.errGeneric) :
    (1 ≤ fuel → sensorExecute .none false timeout poke elapsed fuel 0 = .raisedGeneric) ∧
    (1 ≤ fuel → sensorExecute .skip_on_any_error false timeout poke elapsed fuel 0 = .skipped) ∧
    (1 ≤ fuel → sensorExecute .skip_on_timeout false timeout poke elapsed fuel 0 = .raisedGeneric) ∧
    (j < fuel → timeout < elapsed j →
        sensorExecute .ignore_error false timeout poke elapsed fuel 0 = .sensorTimeout) ∧
    (∀ (policy : FailPolicy) (f k : Nat),
        sensorExecute policy false timeout poke elapsed f k ≠ .success) := by
  refine ⟨?_, ?_, ?_, ?_, sensorExecute_no_silent_success timeout poke elapsed hp⟩
  · intro hf
    rcases fuel with - | f
    · omega
    · simp [sensorExecute, hp 0]
  · intro hf
    rcases fuel with - | f
    · omega
    · simp [sensorExecute, hp 0]
  · intro hf
    rcases fuel with - | f
    · omega
    · simp [sensorExecute, hp 0]
  · intro hj hgt
    exact sensorExecute_ignore_eventual_timeout timeout poke elapsed hp fuel 0
      ⟨j, hj, by simpa using hgt⟩

/-- Witness for C6: a two-second timeout, one-second ticks, five iterations
of fuel; the four policies end in propagation, skip, propagation, and the
hard timeout failure respectively. -/
theorem sensor_fail_policy_matrix_witness :
    sensorExecute .none false 2 (fun _ => .errGeneric) (fun i => (i : ℚ)) 5 0
        = .raisedGeneric ∧
    sensorExecute .skip_on_any_error false 2 (fun _ => .errGeneric) (fun i => (i : ℚ)) 5 0
        = .skipped ∧
    sensorExecute .skip_on_timeout false 2 (fun _ => .errGeneric) (fun i => (i : ℚ)) 5 0
        = .raisedGeneric ∧
    sensorExecute .ignore_error false 2 (fun _ => .errGeneric) (fun i => (i : ℚ)) 5 0
        = .sensorTimeout := by
  have h := sensor_fail_policy_matrix 2 (fun _ => .errGeneric) (fun i => (i : ℚ)) 5 3
    (fun _ => rfl)
  exact ⟨h.1 (by norm_num), h.2.1 (by norm_num), h.2.2.1 (by norm_num),
    h.2.2.2.1 (by norm_num) (by norm_num)⟩

/-! ## Claim C7 -/

/-- **C7**: the next-poke-interval computation is a pure function of the
configuration, the hash function, and the inputs (dag_id, task_id,
started_at, poke_count, elapsed): two invocations at equal inputs return the
identical value. -/
theorem next_poke_interval_deterministic
    (h : String → Nat) (cfg : SensorCfg)
    (d1 t1 s1 : String) (pc1 : Nat) (e1 : ℚ)
    (d2 t2 s2 : String) (pc2 : Nat) (e2 : ℚ)
    (heq : (d1, t1, s1, pc1, e1) = (d2, t2, s2, pc2, e2)) :
    getNextPokeInterval h cfg d1 t1 s1 pc1 e1 = getNextPokeInterval h cfg d2 t2 s2 pc2 e2 := by
  simp only [Prod.mk.injEq] at heq
  obtain ⟨rfl, rfl, rfl, rfl, rfl⟩ := heq
  rfl

/-- Witness for C7: two calls with identical inputs on a concrete
exponential-backoff reschedule configuration agree. -/
theorem next_poke_interval_deterministic_witness :
    getNextPokeInterval (fun s => s.length)
        { poke_interval := 30, timeout := 600, exponential_backoff := true,
          max_wait := some 120, reschedule := true } "dag" "task" "start" 1 65 =
      getNextPokeInterval (fun s => s.length)
        { poke_interval := 30, timeout := 600, exponential_backoff := true,
          max_wait := some 120, reschedule := true } "dag" "task" "start" 1 65 :=
  next_poke_interval_deterministic (fun s => s.length)
    { poke_interval := 30, timeout := 600, exponential_backoff := true,
      max_wait := some 120, reschedule := true } "dag" "task" "start" 1 65
    "dag" "task" "start" 1 65 rfl

/-! ## Claim C10 -/

/-- **C10**: `record_ti` is a no-op when a history row with the same
(dag_id, task_id, run_id, map_index, try_number) already exists; and when
the recorded instance is not in a finished state, the live instance's end
date is stamped to now and its duration recomputed, and the history row is
written with state failed. -/
theorem record_ti_noop_and_failed_stamp
    (now : DT) (ti : TIRow) (hist : List HistRow) :
    (hist.any (histKeyMatches ti) = true → record_ti now ti hist = (ti, hist)) ∧
    (hist.any (histKeyMatches ti) = false →
      isFinishedState ti.state = false →
      record_ti now ti hist =
        (set_duration { ti with end_date := some now },
         hist ++ [mkHistRow (set_duration { ti with end_date := some now })
           (some TIState.failed)])) := by
  constructor
  · intro hx
    simp [record_ti, hx]
  · intro hx hfin
    simp [record_ti, hx, hfin]

/-- Witness for C10: recording an instance whose key is already in history
changes nothing; recording a running instance against empty history stamps
the end date, recomputes the duration, and writes a failed history row. -/
theorem record_ti_noop_and_failed_stamp_witness :
    record_ti exNow exRunTI [exHistRow] = (exRunTI, [exHistRow]) ∧
    record_ti exNow exRunTI [] =
      (set_duration { exRunTI with end_date := some exNow },
       [mkHistRow (set_duration { exRunTI with end_date := some exNow })
         (some TIState.failed)]) :=
  ⟨(record_ti_noop_and_failed_stamp exNow exRunTI [exHistRow]).1 (by decide),
   (record_ti_noop_and_failed_stamp exNow exRunTI []).2 (by decide) (by decide)⟩

/-! ## Claim C9 -/

/-- **C9** (amended): `_get_execution_dates` fails whenever the DAG cannot
report a latest execution timestamp — regardless of whether `future` was
requested (the computation is read-only, so nothing is ever partially
applied); when `future` is not requested and a latest timestamp exists, no
error arises and the originally requested timestamp bounds the range: for a
schedulable periodic timetable the dates are exactly the boundaries
enumerated up to the requested timestamp. -/
theorem execution_dates_latest_and_future
    (env : Env) (dag : Dag) (execution_date : DT) (future past : Bool) :
    (get_latest_execution_date env dag.dag_id = none →
      _get_execution_dates env dag execution_date future past =
        .error (.valueError "Received non-localized date")) ∧
    (∀ latest, get_latest_execution_date env dag.dag_id = some latest →
      _get_execution_dates env dag execution_date false past =
        .ok (execDatesCore env dag (startDateSel dag execution_date past)
          (coerceDT execution_date))) ∧
    (∀ latest, get_latest_execution_date env dag.dag_id = some latest →
      dag.timetable.can_run = true → dag.timetable.periodic = true →
      _get_execution_dates env dag execution_date false past =
        .ok ((dag.timetable.infos_between (startDateSel dag execution_date past)
          (coerceDT execution_date)).map (·.logical_date))) := by
  refine ⟨?_, ?_, ?_⟩
  · intro h
    unfold _get_execution_dates
    rw [h]
  · intro latest h
    unfold _get_execution_dates
    rw [h]
    simp
  · intro latest h hcr hp
    unfold _get_execution_dates
    rw [h]
    simp [execDatesCore, hcr, hp]

/-- Witness for C9 on a concrete environment with a recorded run: without
`future`, the range ends at the requested timestamp 7 and no error arises. -/
theorem execution_dates_latest_and_future_witness :
    _get_execution_dates exEnv exDag { val := 7 } false false = .ok [{ val := 7 }] := by
  have h := (execution_dates_latest_and_future exEnv exDag { val := 7 } false false).2.2
    { val := 5 } (by decide) rfl rfl
  exact h.trans rfl

/-- Counterexample for C9 as stated: with no run recorded (no latest
execution timestamp) and `future` NOT requested, the computation still
raises. -/
theorem execution_dates_error_without_future_cex :
    _get_execution_dates exEmptyEnv exDag { val := 5 } false false =
      .error (.valueError "Received non-localized date") := rfl

/-! ## Run-materializer lemmas -/

theorem assocHas_append (m1 m2 : List (Iv × DagRunRow)) (k : Iv) :
    assocHas (m1 ++ m2) k = (assocHas m1 k || assocHas m2 k) := by
  simp [assocHas, List.any_append]

theorem assocHas_of_mem {m : List (Iv × DagRunRow)} {k : Iv} {v : DagRunRow}
    (h : (k, v) ∈ m) : assocHas m k = true := by
  simp only [assocHas, List.any_eq_true]
  exact ⟨(k, v), h, by simp⟩

/-- The create loop of `_create_dagruns` on intervals none of which are in
the dictionary yet: every info creates its run, in order. -/
theorem createRuns_fold_fresh (now : DT) (d st rt : String) :
    ∀ (infos : List RunInfo) (dict : List (Iv × DagRunRow)) (created : List DagRunRow),
      (∀ info ∈ infos, assocHas dict info.data_interval = false) →
      (infos.map (·.data_interval)).Nodup →
      infos.foldl (createRunsStep now d st rt) (dict, created) =
        (dict ++ infos.map (fun i => (i.data_interval, mkDagRun now d i st rt)),
         created ++ infos.map (fun i => mkDagRun now d i st rt))
  | [], dict, created, _, _ => by simp
  | i :: infos, dict, created, hfresh, hnodup => by
    simp only [List.foldl_cons, createRunsStep, List.map_cons]
    rw [if_neg (by rw [hfresh i (by simp)]; simp)]
    have hput : assocPut dict i.data_interval (mkDagRun now d i st rt)
        = dict ++ [(i.data_interval, mkDagRun now d i st rt)] := by
      unfold assocPut
      rw [hfresh i (by simp)]
      simp
    rw [hput, createRuns_fold_fresh now d st rt infos _ _ ?_ (List.Nodup.of_cons hnodup)]
    · simp
    · intro j hj
      rw [assocHas_append]
      rw [hfresh j (by simp [hj])]
      simp only [Bool.false_or]
      simp only [assocHas, List.any_cons, List.any_nil, Bool.or_false]
      have hne : i.data_interval ≠ j.data_interval := by
        intro he
        refine (List.nodup_cons.1 hnodup).1 ?_
        show i.data_interval ∈ List.map (fun x => x.data_interval) infos
        rw [he]
        exact List.mem_map.2 ⟨j, hj, rfl⟩
      simp [hne]

/-- The create loop of `_create_dagruns` on intervals all of which are
already in the dictionary: nothing is created. -/
theorem createRuns_fold_skip (now : DT) (d st rt : String) :
    ∀ (infos : List RunInfo) (dict : List (Iv × DagRunRow)) (created : List DagRunRow),
      (∀ info ∈ infos, assocHas dict info.data_interval = true) →
      infos.foldl (createRunsStep now d st rt) (dict, created) = (dict, created)
  | [], _, _, _ => by simp
  | i :: infos, dict, created, hall => by
    simp only [List.foldl_cons, createRunsStep]
    rw [if_pos (hall i (by simp))]
    exact createRuns_fold_skip now d st rt infos dict created (fun j hj => hall j (by simp [hj]))

/-- Building the interval-keyed dictionary from runs with pairwise-distinct
intervals appends one entry per run, in order. -/
theorem dictBuild_fresh :
    ∀ (runs : List DagRunRow) (dict : List (Iv × DagRunRow)),
      (∀ run ∈ runs, assocHas dict (get_run_data_interval run) = false) →
      (runs.map (fun run => get_run_data_interval run)).Nodup →
      runs.foldl (fun m run => assocPut m (get_run_data_interval run) run) dict =
        dict ++ runs.map (fun run => (get_run_data_interval run, run))
  | [], dict, _, _ => by simp
  | run :: runs, dict, hfresh, hnodup => by
    simp only [List.foldl_cons, List.map_cons]
    have hput : assocPut dict (get_run_data_interval run) run
        = dict ++ [(get_run_data_interval run, run)] := by
      unfold assocPut
      rw [hfresh run (by simp)]
      simp
    rw [hput, dictBuild_fresh runs _ ?_ (List.Nodup.of_cons hnodup)]
    · simp
    · intro r hr
      rw [assocHas_append]
      rw [hfresh r (by simp [hr])]
      simp only [Bool.false_or]
      simp only [assocHas, List.any_cons, List.any_nil, Bool.or_false]
      have hne : get_run_data_interval run ≠ get_run_data_interval r := by
        intro he
        refine (List.nodup_cons.1 hnodup).1 ?_
        show get_run_data_interval run ∈ List.map (fun run => get_run_data_interval run) runs
        rw [he]
        exact List.mem_map.2 ⟨r, hr, rfl⟩
      simp [hne]

/-! ## Claim C8 -/

/-- **C8**: starting from a store with no runs for the dag, materializing a
set of pairwise-distinct data intervals creates exactly one run per interval
and returns them all; materializing the same intervals again creates no new
row (no duplicates) and still returns exactly one run per interval —
matching is keyed by data interval through the interval-keyed dictionary. -/
theorem create_dagruns_idempotent
    (env : Env) (dag : Dag) (infos : List RunInfo) (state run_type : String)
    (hclean : env.dag_runs.filter (fun r => r.dag_id == dag.dag_id) = [])
    (hnodup : (infos.map (·.data_interval)).Nodup) :
    (_create_dagruns env dag infos state run_type).1.length = infos.length ∧
    (_create_dagruns env dag infos state run_type).2.dag_runs
      = env.dag_runs ++ infos.map (fun i => mkDagRun env.now dag.dag_id i state run_type) ∧
    (_create_dagruns (_create_dagruns env dag infos state run_type).2 dag infos
        state run_type).1.length = infos.length ∧
    (_create_dagruns (_create_dagruns env dag infos state run_type).2 dag infos
        state run_type).2.dag_runs
      = (_create_dagruns env dag infos state run_type).2.dag_runs := by
  have hnone : ∀ r ∈ env.dag_runs, (r.dag_id == dag.dag_id) = false := by
    intro r hr
    have := List.filter_eq_nil_iff.1 hclean r hr
    simpa using this
  have hfind1 : dagRunFind env dag.dag_id (infos.map (·.logical_date)) = [] := by
    rw [dagRunFind, List.filter_eq_nil_iff]
    intro r hr
    simp [hnone r hr]
  have hfold1 := createRuns_fold_fresh env.now dag.dag_id state run_type infos [] []
    (fun info _ => rfl) hnodup
  have hc1 : _create_dagruns env dag infos state run_type =
      (infos.map (fun i => mkDagRun env.now dag.dag_id i state run_type),
       { env with dag_runs := env.dag_runs ++
           infos.map (fun i => mkDagRun env.now dag.dag_id i state run_type) }) := by
    unfold _create_dagruns
    rw [hfind1]
    simp only [List.foldl_nil]
    rw [hfold1]
    simp only [List.nil_append]
    rw [List.map_map]
    rfl
  refine ⟨by rw [hc1]; simp, by rw [hc1], ?_, ?_⟩
  all_goals rw [hc1]
  -- second call, on the environment holding exactly the created runs
  all_goals {
    have hexec : ∀ i ∈ infos,
        ((mkDagRun env.now dag.dag_id i state run_type).dag_id == dag.dag_id) = true ∧
        (infos.map (·.logical_date)).contains
          (mkDagRun env.now dag.dag_id i state run_type).execution_date = true := by
      intro i hi
      refine ⟨by simp [mkDagRun], ?_⟩
      have : (mkDagRun env.now dag.dag_id i state run_type).execution_date = i.logical_date := rfl
      rw [this]
      simpa using List.mem_map_of_mem (·.logical_date) hi
    have hfind2 : dagRunFind
        { env with dag_runs := env.dag_runs ++
            infos.map (fun i => mkDagRun env.now dag.dag_id i state run_type) }
        dag.dag_id (infos.map (·.logical_date))
        = infos.map (fun i => mkDagRun env.now dag.dag_id i state run_type) := by
      unfold dagRunFind
      rw [List.filter_append]
      rw [show env.dag_runs.filter (fun r => r.dag_id == dag.dag_id &&
            (infos.map (·.logical_date)).contains r.execution_date) = [] from ?_]
      · rw [List.nil_append, List.filter_eq_self]
        intro r hr
        obtain ⟨i, hi, rfl⟩ := List.mem_map.1 hr
        obtain ⟨h1, h2⟩ := hexec i hi
        rw [h1, h2]
        rfl
      · rw [List.filter_eq_nil_iff]
        intro r hr
        simp [hnone r hr]
    have hdict0 := dictBuild_fresh
      (infos.map (fun i => mkDagRun env.now dag.dag_id i state run_type)) []
      (fun run _ => rfl) (by rw [List.map_map]; exact hnodup)
    have hdict : (infos.map (fun i => mkDagRun env.now dag.dag_id i state run_type)).foldl
        (fun m run => assocPut m (get_run_data_interval run) run) []
        = infos.map (fun i => (i.data_interval, mkDagRun env.now dag.dag_id i state run_type)) :=
      hdict0.trans (by simp only [List.nil_append, List.map_map]; rfl)
    have hskip := createRuns_fold_skip env.now dag.dag_id state run_type infos
      (infos.map (fun i => (i.data_interval, mkDagRun env.now dag.dag_id i state run_type))) []
      (fun info hinfo => assocHas_of_mem
        (List.mem_map_of_mem (fun i => (i.data_interval, mkDagRun env.now dag.dag_id i state run_type)) hinfo))
    dsimp only [_create_dagruns]
    rw [hfind2, hdict, hskip]
    simp
  }

/-- Witness for C8: two intervals, a clean store; both calls yield exactly
two runs and the second call writes nothing. -/
theorem create_dagruns_idempotent_witness :
    (_create_dagruns exEmptyEnv exDag exInfos "running" "backfill").1.length = 2 ∧
    (_create_dagruns (_create_dagruns exEmptyEnv exDag exInfos "running" "backfill").2
        exDag exInfos "running" "backfill").2.dag_runs
      = (_create_dagruns exEmptyEnv exDag exInfos "running" "backfill").2.dag_runs := by
  have h := create_dagruns_idempotent exEmptyEnv exDag exInfos "running" "backfill"
    (by decide) (by decide)
  exact ⟨h.1, h.2.2.2⟩

/-! ## State-propagator lemmas: the pipeline only appends stateless rows -/

theorem verify_integrity_run_shape (dag : Dag) (run : DagRunRow) (tis : List TIRow) :
    ∃ new, verify_integrity_run dag run tis = tis ++ new ∧ ∀ ti ∈ new, ti.state = none := by
  refine ⟨_, rfl, ?_⟩
  intro ti hti
  simp only [List.mem_filterMap] at hti
  obtain ⟨t, ht, hsome⟩ := hti
  split at hsome
  · cases hsome
  · injection hsome with h
    subst h
    rfl

theorem verify_fold_shape (dag : Dag) :
    ∀ (runs : List DagRunRow) (tis : List TIRow),
      ∃ new, runs.foldl (fun tis run => verify_integrity_run dag run tis) tis = tis ++ new ∧
        ∀ ti ∈ new, ti.state = none
  | [], tis => ⟨[], by simp, by simp⟩
  | run :: runs, tis => by
    simp only [List.foldl_cons]
    obtain ⟨n1, h1, hs1⟩ := verify_integrity_run_shape dag run tis
    rw [h1]
    obtain ⟨n2, h2, hs2⟩ := verify_fold_shape dag runs (tis ++ n1)
    rw [h2]
    refine ⟨n1 ++ n2, by rw [List.append_assoc], ?_⟩
    intro ti hti
    rcases List.mem_append.1 hti with h | h
    · exact hs1 ti h
    · exact hs2 ti h

theorem verify_dag_run_integrity_shape (env : Env) (dag : Dag) (dates : List DT) :
    (∃ new, (_verify_dag_run_integrity env dag dates).2.tis = env.tis ++ new ∧
      ∀ ti ∈ new, ti.state = none) ∧
    (_verify_dag_run_integrity env dag dates).2.dag_runs = env.dag_runs ∧
    (_verify_dag_run_integrity env dag dates).2.now = env.now ∧
    (_verify_dag_run_integrity env dag dates).2.dags = env.dags := by
  refine ⟨?_, rfl, rfl, rfl⟩
  exact verify_fold_shape dag _ env.tis

theorem create_dagruns_env_shape (env : Env) (dag : Dag) (infos : List RunInfo)
    (st rt : String) :
    (_create_dagruns env dag infos st rt).2.tis = env.tis ∧
    (_create_dagruns env dag infos st rt).2.now = env.now ∧
    (_create_dagruns env dag infos st rt).2.dags = env.dags :=
  ⟨rfl, rfl, rfl⟩

theorem verifyDagrunsStep_tis (subdag : Dag) (commit : Bool) (state : TIState)
    (env : Env) (run : DagRunRow) :
    (verifyDagrunsStep subdag commit state env run).tis = verify_integrity_run subdag run env.tis := by
  unfold verifyDagrunsStep
  split <;> rfl

theorem verifyDagrunsStep_now (subdag : Dag) (commit : Bool) (state : TIState)
    (env : Env) (run : DagRunRow) :
    (verifyDagrunsStep subdag commit state env run).now = env.now := by
  unfold verifyDagrunsStep
  split <;> rfl

theorem verifyDagrunsStep_dags (subdag : Dag) (commit : Bool) (state : TIState)
    (env : Env) (run : DagRunRow) :
    (verifyDagrunsStep subdag commit state env run).dags = env.dags := by
  unfold verifyDagrunsStep
  split <;> rfl

theorem verify_dagruns_shape (subdag : Dag) (commit : Bool) (state : TIState) :
    ∀ (runs : List DagRunRow) (env : Env),
      (∃ new, (_verify_dagruns subdag runs commit state env).tis = env.tis ++ new ∧
        ∀ ti ∈ new, ti.state = none) ∧
      (_verify_dagruns subdag runs commit state env).now = env.now ∧
      (_verify_dagruns subdag runs commit state env).dags = env.dags
  | [], env => ⟨⟨[], by simp [_verify_dagruns], by simp⟩, rfl, rfl⟩
  | run :: runs, env => by
    have hstep_tis := verifyDagrunsStep_tis subdag commit state env run
    have hstep_now := verifyDagrunsStep_now subdag commit state env run
    have hstep_dags := verifyDagrunsStep_dags subdag commit state env run
    have hrec := verify_dagruns_shape subdag commit state runs
      (verifyDagrunsStep subdag commit state env run)
    obtain ⟨⟨n2, h2, hs2⟩, hnow, hdags⟩ := hrec
    obtain ⟨n1, h1, hs1⟩ := verify_integrity_run_shape subdag run env.tis
    have hfold : _verify_dagruns subdag (run :: runs) commit state env =
        _verify_dagruns subdag runs commit state (verifyDagrunsStep subdag commit state env run) := by
      simp [_verify_dagruns]
    refine ⟨⟨n1 ++ n2, ?_, ?_⟩, ?_, ?_⟩
    · rw [hfold, h2, hstep_tis, h1, List.append_assoc]
    · intro ti hti
      rcases List.mem_append.1 hti with h | h
      · exact hs1 ti h
      · exact hs2 ti h
    · rw [hfold, hnow, hstep_now]
    · rw [hfold, hdags, hstep_dags]

theorem subdagSweep_fold_shape (state : TIState) (commit : Bool) (infos : List RunInfo)
    (current : Dag) :
    ∀ (task_ids : List String) (acc : List Dag × List String × Env),
      (∃ new, (task_ids.foldl (subdagSweepStep state commit infos current) acc).2.2.tis
          = acc.2.2.tis ++ new ∧ ∀ ti ∈ new, ti.state = none) ∧
      (task_ids.foldl (subdagSweepStep state commit infos current) acc).2.2.now = acc.2.2.now ∧
      (task_ids.foldl (subdagSweepStep state commit infos current) acc).2.2.dags = acc.2.2.dags
  | [], acc => ⟨⟨[], by simp, by simp⟩, rfl, rfl⟩
  | task_id :: task_ids, acc => by
    have hstep : (∃ new, (subdagSweepStep state commit infos current acc task_id).2.2.tis
        = acc.2.2.tis ++ new ∧ ∀ ti ∈ new, ti.state = none) ∧
        (subdagSweepStep state commit infos current acc task_id).2.2.now = acc.2.2.now ∧
        (subdagSweepStep state commit infos current acc task_id).2.2.dags = acc.2.2.dags := by
      unfold subdagSweepStep
      split
      · exact ⟨⟨[], by simp, by simp⟩, rfl, rfl⟩
      · split
        · exact ⟨⟨[], by simp, by simp⟩, rfl, rfl⟩
        · split
          · exact ⟨⟨[], by simp, by simp⟩, rfl, rfl⟩
          · rename_i subdag heq
            obtain ⟨⟨nv, hv, hsv⟩, hvn, hvd⟩ := verify_dagruns_shape subdag commit state
              (_create_dagruns acc.2.2 subdag infos "running" "backfill").1
              (_create_dagruns acc.2.2 subdag infos "running" "backfill").2
            obtain ⟨hct, hcn, hcd⟩ := create_dagruns_env_shape acc.2.2 subdag infos
              "running" "backfill"
            refine ⟨⟨nv, ?_, hsv⟩, ?_, ?_⟩
            · show (_verify_dagruns subdag _ commit state _).tis = _
              rw [hv, hct]
            · show (_verify_dagruns subdag _ commit state _).now = _
              rw [hvn, hcn]
            · show (_verify_dagruns subdag _ commit state _).dags = _
              rw [hvd, hcd]
    obtain ⟨⟨n1, h1, hs1⟩, hn1, hd1⟩ := hstep
    obtain ⟨⟨n2, h2, hs2⟩, hn2, hd2⟩ := subdagSweep_fold_shape state commit infos current
      task_ids (subdagSweepStep state commit infos current acc task_id)
    refine ⟨⟨n1 ++ n2, ?_, ?_⟩, ?_, ?_⟩
    · rw [List.foldl_cons, h2, h1, List.append_assoc]
    · intro ti hti
      rcases List.mem_append.1 hti with h | h
      · exact hs1 ti h
      · exact hs2 ti h
    · rw [List.foldl_cons, hn2, hn1]
    · rw [List.foldl_cons, hd2, hd1]

theorem subdagLoop_shape (state : TIState) (commit : Bool) (infos : List RunInfo)
    (task_ids : List String) :
    ∀ (fuel : Nat) (stack : List Dag) (acc : List String) (env : Env),
      (∃ new, (subdagLoop state commit infos task_ids fuel stack acc env).2.tis
          = env.tis ++ new ∧ ∀ ti ∈ new, ti.state = none) ∧
      (subdagLoop state commit infos task_ids fuel stack acc env).2.now = env.now ∧
      (subdagLoop state commit infos task_ids fuel stack acc env).2.dags = env.dags
  | 0, _, acc, env => ⟨⟨[], by simp [subdagLoop], by simp⟩, rfl, rfl⟩
  | _fuel+1, [], acc, env => ⟨⟨[], by simp [subdagLoop], by simp⟩, rfl, rfl⟩
  | fuel+1, current :: stack, acc, env => by
    obtain ⟨⟨n1, h1, hs1⟩, hn1, hd1⟩ := subdagSweep_fold_shape state commit infos current
      task_ids ([], [], env)
    obtain ⟨⟨n2, h2, hs2⟩, hn2, hd2⟩ := subdagLoop_shape state commit infos task_ids fuel
      ((subdagSweep current state commit infos task_ids env).1.reverse ++ stack)
      (acc ++ (subdagSweep current state commit infos task_ids env).2.1)
      (subdagSweep current state commit infos task_ids env).2.2
    have hloop : subdagLoop state commit infos task_ids (fuel+1) (current :: stack) acc env =
        subdagLoop state commit infos task_ids fuel
          ((subdagSweep current state commit infos task_ids env).1.reverse ++ stack)
          (acc ++ (subdagSweep current state commit infos task_ids env).2.1)
          (subdagSweep current state commit infos task_ids env).2.2 := rfl
    refine ⟨⟨n1 ++ n2, ?_, ?_⟩, ?_, ?_⟩
    · rw [hloop, h2]
      show (subdagSweep current state commit infos task_ids env).2.2.tis ++ n2 = _
      rw [show (subdagSweep current state commit infos task_ids env).2.2.tis = env.tis ++ n1 from h1,
        List.append_assoc]
    · intro ti hti
      rcases List.mem_append.1 hti with h | h
      · exact hs1 ti h
      · exact hs2 ti h
    · rw [hloop, hn2]
      exact hn1
    · rw [hloop, hd2]
      exact hd1

theorem get_subdag_runs_shape (env : Env) (dag : Dag) (state : TIState)
    (task_ids : List String) (commit : Bool) (infos : List RunInfo) :
    (∃ new, (_get_subdag_runs env dag state task_ids commit infos).2.tis
        = env.tis ++ new ∧ ∀ ti ∈ new, ti.state = none) ∧
    (_get_subdag_runs env dag state task_ids commit infos).2.now = env.now ∧
    (_get_subdag_runs env dag state task_ids commit infos).2.dags = env.dags :=
  subdagLoop_shape state commit infos task_ids _ [dag] [] env

/-! ## State-propagator lemmas: the pipeline is commit-independent up to
stored run states -/

theorem envSim_refl (e : Env) : EnvSim e e := ⟨rfl, rfl, rfl, rfl⟩

theorem eraseRunState_fields {a b : DagRunRow} (h : eraseRunState a = eraseRunState b) :
    a.dag_id = b.dag_id ∧ a.run_id = b.run_id ∧ a.execution_date = b.execution_date ∧
      a.data_interval = b.data_interval := by
  cases a
  cases b
  simp only [eraseRunState, DagRunRow.mk.injEq] at h
  exact ⟨h.1, h.2.1, h.2.2.1, h.2.2.2.1⟩

theorem map_erase_forall2 : ∀ {l1 l2 : List DagRunRow},
    l1.map eraseRunState = l2.map eraseRunState ↔
      List.Forall₂ (fun a b => eraseRunState a = eraseRunState b) l1 l2 := by
  intro l1
  induction l1 with
  | nil =>
    intro l2
    cases l2 <;> simp
  | cons a l1 ih =>
    intro l2
    cases l2 with
    | nil => simp
    | cons b l2 => simp [ih]

theorem updateRunState_erase (runs : List DagRunRow) (run : DagRunRow) (st : String) :
    (updateRunState runs run st).map eraseRunState = runs.map eraseRunState := by
  unfold updateRunState
  rw [List.map_map]
  refine List.map_congr_left ?_
  intro r _
  simp only [Function.comp_apply]
  split <;> rfl

theorem tiExecDate_sim : ∀ {r1 r2 : List DagRunRow},
    List.Forall₂ (fun a b => eraseRunState a = eraseRunState b) r1 r2 →
    ∀ ti, tiExecDate r1 ti = tiExecDate r2 ti := by
  intro r1 r2 h
  induction h with
  | nil => intro ti; rfl
  | @cons a b l1 l2 hab htail ih =>
    intro ti
    obtain ⟨h1, h2, h3, -⟩ := eraseRunState_fields hab
    show ((a :: l1).find? (fun r => r.dag_id == ti.dag_id && r.run_id == ti.run_id)).map
        (·.execution_date) = ((b :: l2).find? _).map (·.execution_date)
    cases hpa : (a.dag_id == ti.dag_id && a.run_id == ti.run_id) with
    | true =>
      have hpb : (b.dag_id == ti.dag_id && b.run_id == ti.run_id) = true := by
        rw [← h1, ← h2]
        exact hpa
      rw [@List.find?_cons_of_pos _ (fun r => r.dag_id == ti.dag_id && r.run_id == ti.run_id) a l1 hpa,
        @List.find?_cons_of_pos _ (fun r => r.dag_id == ti.dag_id && r.run_id == ti.run_id) b l2 hpb]
      simp [h3]
    | false =>
      have hpb : (b.dag_id == ti.dag_id && b.run_id == ti.run_id) = false := by
        rw [← h1, ← h2]
        exact hpa
      rw [@List.find?_cons_of_neg _ (fun r => r.dag_id == ti.dag_id && r.run_id == ti.run_id) a l1 (by simp [hpa]),
        @List.find?_cons_of_neg _ (fun r => r.dag_id == ti.dag_id && r.run_id == ti.run_id) b l2 (by simp [hpb])]
      exact ih ti

theorem forall2_filter_erase {p : DagRunRow → Bool}
    (hp : ∀ a b, eraseRunState a = eraseRunState b → p a = p b) :
    ∀ {l1 l2}, List.Forall₂ (fun a b => eraseRunState a = eraseRunState b) l1 l2 →
      List.Forall₂ (fun a b => eraseRunState a = eraseRunState b) (l1.filter p) (l2.filter p) := by
  intro l1 l2 h
  induction h with
  | nil => simp
  | @cons a b l1 l2 hab htail ih =>
    cases hpa : p a with
    | true =>
      rw [List.filter_cons_of_pos hpa, List.filter_cons_of_pos (by rw [← hp a b hab]; exact hpa)]
      exact List.Forall₂.cons hab ih
    | false =>
      rw [List.filter_cons_of_neg (by simp [hpa]),
        List.filter_cons_of_neg (by simp [← hp a b hab, hpa])]
      exact ih

theorem dagRunFind_sim {e1 e2 : Env} (h : EnvSim e1 e2) (dag_id : String) (dates : List DT) :
    List.Forall₂ (fun a b => eraseRunState a = eraseRunState b)
      (dagRunFind e1 dag_id dates) (dagRunFind e2 dag_id dates) := by
  obtain ⟨-, -, -, hrun⟩ := h
  rw [map_erase_forall2] at hrun
  refine forall2_filter_erase ?_ hrun
  intro a b hab
  obtain ⟨h1, -, h3, -⟩ := eraseRunState_fields hab
  rw [h1, h3]

theorem assocHas_sim : ∀ {m1 m2 : List (Iv × DagRunRow)},
    List.Forall₂ (fun p q => p.1 = q.1 ∧ eraseRunState p.2 = eraseRunState q.2) m1 m2 →
    ∀ k, assocHas m1 k = assocHas m2 k := by
  intro m1 m2 h
  induction h with
  | nil => intro k; rfl
  | @cons a b l1 l2 hab htail ih =>
    intro k
    show (a.1 == k || l1.any (fun p => p.1 == k)) = (b.1 == k || l2.any (fun p => p.1 == k))
    rw [hab.1]
    have := ih k
    simp only [assocHas] at this
    rw [this]

theorem assocPut_sim : ∀ {m1 m2 : List (Iv × DagRunRow)},
    List.Forall₂ (fun p q => p.1 = q.1 ∧ eraseRunState p.2 = eraseRunState q.2) m1 m2 →
    ∀ (k : Iv) {v1 v2 : DagRunRow}, eraseRunState v1 = eraseRunState v2 →
    List.Forall₂ (fun p q => p.1 = q.1 ∧ eraseRunState p.2 = eraseRunState q.2)
      (assocPut m1 k v1) (assocPut m2 k v2) := by
  intro m1 m2 h k v1 v2 hv
  unfold assocPut
  rw [assocHas_sim h k]
  cases hhas : assocHas m2 k with
  | false =>
    simp only [Bool.false_eq_true, if_false]
    exact List.rel_append h (List.Forall₂.cons ⟨rfl, hv⟩ List.Forall₂.nil)
  | true =>
    simp only [if_true]
    clear hhas
    induction h with
    | nil => simp
    | @cons a b l1 l2 hab htail ih =>
      simp only [List.map_cons]
      rw [hab.1]
      cases hk : (b.1 == k) with
      | true =>
        simp only [if_true]
        exact List.Forall₂.cons ⟨rfl, hv⟩ ih
      | false =>
        simp only [Bool.false_eq_true, if_false]
        exact List.Forall₂.cons hab ih

theorem dictFold_sim : ∀ {rs1 rs2 : List DagRunRow},
    List.Forall₂ (fun a b => eraseRunState a = eraseRunState b) rs1 rs2 →
    ∀ {m1 m2 : List (Iv × DagRunRow)},
      List.Forall₂ (fun p q => p.1 = q.1 ∧ eraseRunState p.2 = eraseRunState q.2) m1 m2 →
    List.Forall₂ (fun p q => p.1 = q.1 ∧ eraseRunState p.2 = eraseRunState q.2)
      (rs1.foldl (fun m run => assocPut m (get_run_data_interval run) run) m1)
      (rs2.foldl (fun m run => assocPut m (get_run_data_interval run) run) m2) := by
  intro rs1 rs2 h
  induction h with
  | nil => intro m1 m2 hm; exact hm
  | @cons a b l1 l2 hab htail ih =>
    intro m1 m2 hm
    simp only [List.foldl_cons]
    refine ih ?_
    have hiv : get_run_data_interval a = get_run_data_interval b :=
      (eraseRunState_fields hab).2.2.2
    rw [hiv]
    exact assocPut_sim hm (get_run_data_interval b) hab

theorem createFold_sim (now : DT) (d st rt : String) :
    ∀ (infos : List RunInfo) {m1 m2 : List (Iv × DagRunRow)},
      List.Forall₂ (fun p q => p.1 = q.1 ∧ eraseRunState p.2 = eraseRunState q.2) m1 m2 →
      ∀ (c : List DagRunRow),
      List.Forall₂ (fun p q => p.1 = q.1 ∧ eraseRunState p.2 = eraseRunState q.2)
        (infos.foldl (createRunsStep now d st rt) (m1, c)).1
        (infos.foldl (createRunsStep now d st rt) (m2, c)).1 ∧
      (infos.foldl (createRunsStep now d st rt) (m1, c)).2
        = (infos.foldl (createRunsStep now d st rt) (m2, c)).2
  | [], m1, m2, hm, c => ⟨hm, rfl⟩
  | info :: infos, m1, m2, hm, c => by
    simp only [List.foldl_cons, createRunsStep]
    rw [assocHas_sim hm info.data_interval]
    cases hhas : assocHas m2 info.data_interval with
    | true =>
      simp only [if_true]
      exact createFold_sim now d st rt infos hm c
    | false =>
      simp only [Bool.false_eq_true, if_false]
      exact createFold_sim now d st rt infos
        (assocPut_sim hm info.data_interval rfl) (c ++ [mkDagRun now d info st rt])

theorem forall2_map_snd_erase : ∀ {m1 m2 : List (Iv × DagRunRow)},
    List.Forall₂ (fun p q => p.1 = q.1 ∧ eraseRunState p.2 = eraseRunState q.2) m1 m2 →
    (m1.map (·.2)).map eraseRunState = (m2.map (·.2)).map eraseRunState := by
  intro m1 m2 h
  induction h with
  | nil => rfl
  | cons hab htail ih =>
    simp only [List.map_cons, ih, hab.2]

theorem create_dagruns_sim {e1 e2 : Env} (h : EnvSim e1 e2) (dag : Dag)
    (infos : List RunInfo) (st rt : String) :
    List.Forall₂ (fun a b => eraseRunState a = eraseRunState b)
      (_create_dagruns e1 dag infos st rt).1 (_create_dagruns e2 dag infos st rt).1 ∧
    EnvSim (_create_dagruns e1 dag infos st rt).2 (_create_dagruns e2 dag infos st rt).2 := by
  obtain ⟨hdags, htis, hnow, hruns⟩ := h
  have hfound := dagRunFind_sim ⟨hdags, htis, hnow, hruns⟩ dag.dag_id (infos.map (·.logical_date))
  have hdict := @dictFold_sim _ _ hfound [] [] List.Forall₂.nil
  have hfold := createFold_sim e1.now dag.dag_id st rt infos hdict []
  constructor
  · show List.Forall₂ _ ((infos.foldl (createRunsStep e1.now dag.dag_id st rt) (_, [])).1.map (·.2))
      ((infos.foldl (createRunsStep e2.now dag.dag_id st rt) (_, [])).1.map (·.2))
    rw [← hnow]
    rw [← map_erase_forall2]
    exact forall2_map_snd_erase hfold.1
  · refine ⟨hdags, htis, hnow, ?_⟩
    show (e1.dag_runs ++ (infos.foldl (createRunsStep e1.now dag.dag_id st rt) (_, [])).2).map
        eraseRunState = (e2.dag_runs ++ (infos.foldl (createRunsStep e2.now dag.dag_id st rt) (_, [])).2).map eraseRunState
    rw [← hnow, List.map_append, List.map_append, hruns, hfold.2]

theorem verify_integrity_run_key_only (dag : Dag) {a b : DagRunRow}
    (h1 : a.dag_id = b.dag_id) (h2 : a.run_id = b.run_id) (tis : List TIRow) :
    verify_integrity_run dag a tis = verify_integrity_run dag b tis := by
  unfold verify_integrity_run
  rw [h1, h2]

theorem verifyDagrunsStep_sim (subdag : Dag) (state : TIState) (c1 c2 : Bool)
    {e1 e2 : Env} (h : EnvSim e1 e2) {a b : DagRunRow}
    (hab : eraseRunState a = eraseRunState b) :
    EnvSim (verifyDagrunsStep subdag c1 state e1 a) (verifyDagrunsStep subdag c2 state e2 b) := by
  obtain ⟨hdags, htis, hnow, hruns⟩ := h
  obtain ⟨h1, h2, -, -⟩ := eraseRunState_fields hab
  have htis' : verify_integrity_run subdag a e1.tis = verify_integrity_run subdag b e2.tis := by
    rw [htis]
    exact verify_integrity_run_key_only subdag h1 h2 e2.tis
  refine ⟨?_, ?_, ?_, ?_⟩
  · rw [verifyDagrunsStep_dags, verifyDagrunsStep_dags]
    exact hdags
  · rw [verifyDagrunsStep_tis, verifyDagrunsStep_tis]
    exact htis'
  · rw [verifyDagrunsStep_now, verifyDagrunsStep_now]
    exact hnow
  · show (verifyDagrunsStep subdag c1 state e1 a).dag_runs.map eraseRunState
        = (verifyDagrunsStep subdag c2 state e2 b).dag_runs.map eraseRunState
    unfold verifyDagrunsStep
    cases c1 <;> cases c2 <;>
      simp only [if_true, if_false, Bool.false_eq_true, updateRunState_erase] <;>
      exact hruns

theorem verify_dagruns_sim (subdag : Dag) (state : TIState) :
    ∀ {runs1 runs2 : List DagRunRow},
      List.Forall₂ (fun a b => eraseRunState a = eraseRunState b) runs1 runs2 →
      ∀ (c1 c2 : Bool) {e1 e2 : Env}, EnvSim e1 e2 →
      EnvSim (_verify_dagruns subdag runs1 c1 state e1) (_verify_dagruns subdag runs2 c2 state e2) := by
  intro runs1 runs2 h
  induction h with
  | nil =>
    intro c1 c2 e1 e2 he
    exact he
  | @cons a b l1 l2 hab htail ih =>
    intro c1 c2 e1 e2 he
    show EnvSim (_verify_dagruns subdag l1 c1 state (verifyDagrunsStep subdag c1 state e1 a))
      (_verify_dagruns subdag l2 c2 state (verifyDagrunsStep subdag c2 state e2 b))
    exact ih c1 c2 (verifyDagrunsStep_sim subdag state c1 c2 he hab)

theorem subdagSweepStep_sim (state : TIState) (infos : List RunInfo) (current : Dag)
    (c1 c2 : Bool) {acc1 acc2 : List Dag × List String × Env}
    (hd : acc1.1 = acc2.1) (hi : acc1.2.1 = acc2.2.1) (he : EnvSim acc1.2.2 acc2.2.2)
    (task_id : String) :
    (subdagSweepStep state c1 infos current acc1 task_id).1
      = (subdagSweepStep state c2 infos current acc2 task_id).1 ∧
    (subdagSweepStep state c1 infos current acc1 task_id).2.1
      = (subdagSweepStep state c2 infos current acc2 task_id).2.1 ∧
    EnvSim (subdagSweepStep state c1 infos current acc1 task_id).2.2
      (subdagSweepStep state c2 infos current acc2 task_id).2.2 := by
  unfold subdagSweepStep
  cases hfind : List.find? (fun t => t.task_id == task_id) current.tasks with
  | none => exact ⟨hd, hi, he⟩
  | some t =>
    dsimp only
    cases hcond : (!t.is_subdag_op && t.task_type != "SubDagOperator") with
    | true =>
      rw [if_pos rfl, if_pos rfl]
      exact ⟨hd, hi, he⟩
    | false =>
      simp only [Bool.false_eq_true, if_false]
      have hlook : t.subdag_id.bind (dagLookup acc1.2.2) = t.subdag_id.bind (dagLookup acc2.2.2) := by
        unfold dagLookup
        rw [he.1]
      rw [hlook]
      cases hsub : t.subdag_id.bind (dagLookup acc2.2.2) with
      | none => exact ⟨hd, hi, he⟩
      | some subdag =>
        obtain ⟨hcruns, hcenv⟩ := create_dagruns_sim he subdag infos "running" "backfill"
        refine ⟨by rw [hd], by rw [hi], ?_⟩
        exact verify_dagruns_sim subdag state hcruns c1 c2 hcenv

theorem subdagSweep_fold_sim (state : TIState) (infos : List RunInfo) (current : Dag)
    (c1 c2 : Bool) :
    ∀ (task_ids : List String) {acc1 acc2 : List Dag × List String × Env},
      acc1.1 = acc2.1 → acc1.2.1 = acc2.2.1 → EnvSim acc1.2.2 acc2.2.2 →
      (task_ids.foldl (subdagSweepStep state c1 infos current) acc1).1
        = (task_ids.foldl (subdagSweepStep state c2 infos current) acc2).1 ∧
      (task_ids.foldl (subdagSweepStep state c1 infos current) acc1).2.1
        = (task_ids.foldl (subdagSweepStep state c2 infos current) acc2).2.1 ∧
      EnvSim (task_ids.foldl (subdagSweepStep state c1 infos current) acc1).2.2
        (task_ids.foldl (subdagSweepStep state c2 infos current) acc2).2.2
  | [], acc1, acc2, hd, hi, he => ⟨hd, hi, he⟩
  | task_id :: task_ids, acc1, acc2, hd, hi, he => by
    simp only [List.foldl_cons]
    obtain ⟨hd', hi', he'⟩ := subdagSweepStep_sim state infos current c1 c2 hd hi he task_id
    exact subdagSweep_fold_sim state infos current c1 c2 task_ids hd' hi' he'

theorem subdagLoop_sim (state : TIState) (infos : List RunInfo) (task_ids : List String)
    (c1 c2 : Bool) :
    ∀ (fuel : Nat) (stack : List Dag) (acc : List String) {e1 e2 : Env}, EnvSim e1 e2 →
      (subdagLoop state c1 infos task_ids fuel stack acc e1).1
        = (subdagLoop state c2 infos task_ids fuel stack acc e2).1 ∧
      EnvSim (subdagLoop state c1 infos task_ids fuel stack acc e1).2
        (subdagLoop state c2 infos task_ids fuel stack acc e2).2
  | 0, _, acc, e1, e2, he => ⟨rfl, he⟩
  | _fuel+1, [], acc, e1, e2, he => ⟨rfl, he⟩
  | fuel+1, current :: stack, acc, e1, e2, he => by
    obtain ⟨hd0, hi0, he0⟩ := @subdagSweep_fold_sim state infos current c1 c2 task_ids
      ([], [], e1) ([], [], e2) rfl rfl he
    have hd1 : (subdagSweep current state c1 infos task_ids e1).1
        = (subdagSweep current state c2 infos task_ids e2).1 := hd0
    have hi1 : (subdagSweep current state c1 infos task_ids e1).2.1
        = (subdagSweep current state c2 infos task_ids e2).2.1 := hi0
    have he1 : EnvSim (subdagSweep current state c1 infos task_ids e1).2.2
        (subdagSweep current state c2 infos task_ids e2).2.2 := he0
    show (subdagLoop state c1 infos task_ids fuel
        ((subdagSweep current state c1 infos task_ids e1).1.reverse ++ stack)
        (acc ++ (subdagSweep current state c1 infos task_ids e1).2.1)
        (subdagSweep current state c1 infos task_ids e1).2.2).1
      = (subdagLoop state c2 infos task_ids fuel
        ((subdagSweep current state c2 infos task_ids e2).1.reverse ++ stack)
        (acc ++ (subdagSweep current state c2 infos task_ids e2).2.1)
        (subdagSweep current state c2 infos task_ids e2).2.2).1
      ∧ EnvSim (subdagLoop state c1 infos task_ids fuel
        ((subdagSweep current state c1 infos task_ids e1).1.reverse ++ stack)
        (acc ++ (subdagSweep current state c1 infos task_ids e1).2.1)
        (subdagSweep current state c1 infos task_ids e1).2.2).2
        (subdagLoop state c2 infos task_ids fuel
        ((subdagSweep current state c2 infos task_ids e2).1.reverse ++ stack)
        (acc ++ (subdagSweep current state c2 infos task_ids e2).2.1)
        (subdagSweep current state c2 infos task_ids e2).2.2).2
    rw [hd1, hi1]
    exact subdagLoop_sim state infos task_ids c1 c2 fuel
      ((subdagSweep current state c2 infos task_ids e2).1.reverse ++ stack)
      (acc ++ (subdagSweep current state c2 infos task_ids e2).2.1) he1

theorem get_subdag_runs_sim (env : Env) (dag : Dag) (state : TIState)
    (task_ids : List String) (c1 c2 : Bool) (infos : List RunInfo) :
    (_get_subdag_runs env dag state task_ids c1 infos).1
      = (_get_subdag_runs env dag state task_ids c2 infos).1 ∧
    EnvSim (_get_subdag_runs env dag state task_ids c1 infos).2
      (_get_subdag_runs env dag state task_ids c2 infos).2 :=
  subdagLoop_sim state infos task_ids c1 c2 _ [dag] [] (envSim_refl env)

theorem mainQueryPred_sim {r1 r2 : List DagRunRow}
    (h : List.Forall₂ (fun a b => eraseRunState a = eraseRunState b) r1 r2)
    (dag_id : String) (state : TIState) (task_ids : List String)
    (confirmed_dates : List DT) (ti : TIRow) :
    mainQueryPred r1 dag_id state task_ids confirmed_dates ti
      = mainQueryPred r2 dag_id state task_ids confirmed_dates ti := by
  unfold mainQueryPred
  rw [tiExecDate_sim h ti]

theorem subQueryPred_sim {r1 r2 : List DagRunRow}
    (h : List.Forall₂ (fun a b => eraseRunState a = eraseRunState b) r1 r2)
    (sub_dag_ids : List String) (state : TIState)
    (confirmed_dates : List DT) (ti : TIRow) :
    subQueryPred r1 sub_dag_ids state confirmed_dates ti
      = subQueryPred r2 sub_dag_ids state confirmed_dates ti := by
  unfold subQueryPred
  rw [tiExecDate_sim h ti]

theorem ssrPipeline_sim (env : Env) (dag : Dag) (task_ids : List String)
    (dates : List DT) (state : TIState) (c1 c2 : Bool) :
    (ssrPipeline env dag task_ids dates state c1).1
      = (ssrPipeline env dag task_ids dates state c2).1 ∧
    EnvSim (ssrPipeline env dag task_ids dates state c1).2
      (ssrPipeline env dag task_ids dates state c2).2 :=
  get_subdag_runs_sim (_verify_dag_run_integrity env dag dates).2 dag state task_ids c1 c2
    (_verify_dag_run_integrity env dag dates).1

theorem ssrPipeline_shape (env : Env) (dag : Dag) (task_ids : List String)
    (dates : List DT) (state : TIState) (commit : Bool) :
    (∃ new, (ssrPipeline env dag task_ids dates state commit).2.tis = env.tis ++ new ∧
      ∀ ti ∈ new, ti.state = none) ∧
    (ssrPipeline env dag task_ids dates state commit).2.now = env.now := by
  obtain ⟨⟨n1, h1, hs1⟩, hruns, hnow, hdags⟩ := verify_dag_run_integrity_shape env dag dates
  obtain ⟨⟨n2, h2, hs2⟩, hnow2, hdags2⟩ := get_subdag_runs_shape
    (_verify_dag_run_integrity env dag dates).2 dag state task_ids commit
    (_verify_dag_run_integrity env dag dates).1
  refine ⟨⟨n1 ++ n2, ?_, ?_⟩, ?_⟩
  · show (_get_subdag_runs (_verify_dag_run_integrity env dag dates).2 dag state task_ids
        commit (_verify_dag_run_integrity env dag dates).1).2.tis = env.tis ++ (n1 ++ n2)
    rw [h2, h1, List.append_assoc]
  · intro ti hti
    rcases List.mem_append.1 hti with h | h
    · exact hs1 ti h
    · exact hs2 ti h
  · show (_get_subdag_runs (_verify_dag_run_integrity env dag dates).2 dag state task_ids
        commit (_verify_dag_run_integrity env dag dates).1).2.now = env.now
    rw [hnow2, hnow]

theorem ssrCands_comm (env : Env) (dag : Dag) (task_ids : List String)
    (dates : List DT) (state : TIState) :
    ssrCands env dag task_ids dates state true = ssrCands env dag task_ids dates state false := by
  obtain ⟨hids, hsim⟩ := ssrPipeline_sim env dag task_ids dates state false true
  obtain ⟨hdagsS, htisS, hnowS, hrunsS⟩ := hsim
  have hF2 : List.Forall₂ (fun a b => eraseRunState a = eraseRunState b)
      (ssrPipeline env dag task_ids dates state false).2.dag_runs
      (ssrPipeline env dag task_ids dates state true).2.dag_runs := by
    rwa [map_erase_forall2] at hrunsS
  unfold ssrCands
  dsimp only
  rw [← htisS, ← hids]
  congr 1
  · exact List.filter_congr (fun ti _ =>
      (mainQueryPred_sim hF2 dag.dag_id state task_ids (ssrConfirmed env dag dates) ti).symm)
  · refine List.filter_congr (fun ti _ => ?_)
    rw [subQueryPred_sim hF2 (ssrPipeline env dag task_ids dates state false).1 state
      (ssrConfirmed env dag dates) ti]

theorem ssrCands_mem_iff (env : Env) (dag : Dag) (task_ids : List String)
    (dates : List DT) (state : TIState) (ti : TIRow) :
    ti ∈ ssrCands env dag task_ids dates state false ↔
      ti ∈ (ssrPipeline env dag task_ids dates state false).2.tis ∧
        (mainQueryPred (ssrPipeline env dag task_ids dates state false).2.dag_runs dag.dag_id
            state task_ids (ssrConfirmed env dag dates) ti
          || (!(ssrPipeline env dag task_ids dates state false).1.isEmpty &&
              subQueryPred (ssrPipeline env dag task_ids dates state false).2.dag_runs
                (ssrPipeline env dag task_ids dates state false).1 state
                (ssrConfirmed env dag dates) ti)) = true := by
  unfold ssrCands
  dsimp only
  simp only [List.mem_append, List.mem_filter, Bool.or_eq_true, Bool.and_eq_true]
  tauto

theorem applyTarget_finished (state : TIState) (now : DT) (ti : TIRow)
    (h : finishedStates.contains state = true) :
    applyTarget state now ti
      = set_duration { ti with state := some state, end_date := some now } := by
  unfold applyTarget
  rw [if_pos h]

theorem applyTarget_finished_end_date (state : TIState) (now : DT) (ti : TIRow)
    (h : finishedStates.contains state = true) :
    (applyTarget state now ti).end_date = some now ∧
    (applyTarget state now ti).state = some state := by
  rw [applyTarget_finished state now ti h]
  unfold set_duration
  dsimp only
  cases ti.start_date <;> exact ⟨rfl, rfl⟩

/-- C3: `set_state(..., commit=False)` computes the candidate set through
the same repair-and-propagate pipeline as a commit but leaves every stored
instance's state unchanged (the pipeline only appends NULL-state repair
rows); the same call with `commit=True` succeeds on exactly the same
validated input, returns the dry run's candidate set with the target state
applied, mutates exactly that candidate set among the stored rows, and for
a finished target state additionally stamps `end_date` with the store clock
and recomputes `duration` on each mutated instance. -/
theorem set_state_dry_run_vs_commit
    (env : Env) (tasks : List (Task × Option Dag)) (execution_date : DT)
    (upstream downstream future past : Bool) (state : TIState)
    (c0 : List TIRow) (env1 : Env)
    (hdry : set_state env tasks execution_date upstream downstream future past state false
        = .ok (c0, env1)) :
    (∃ new, env1.tis = env.tis ++ new ∧ ∀ ti ∈ new, ti.state = none) ∧
    ∃ c1 env2,
      set_state env tasks execution_date upstream downstream future past state true
        = .ok (c1, env2) ∧
      c1 = c0.map (applyTarget state env.now) ∧
      env2.tis = env1.tis.map
        (fun ti => if ti ∈ c0 then applyTarget state env.now ti else ti) ∧
      (∀ ti ∈ c0, ti ∈ env1.tis) ∧
      (finishedStates.contains state = true →
        c1 = c0.map (fun ti => set_duration
          { ti with state := some state, end_date := some env.now }) ∧
        ∀ ti1 ∈ c1, ti1.end_date = some env.now ∧ ti1.state = some state) := by
  unfold set_state at hdry
  split at hdry
  · rename_i hempty
    injection hdry with h
    rw [Prod.mk.injEq] at h
    obtain ⟨h1, h2⟩ := h
    subst h1
    subst h2
    refine ⟨⟨[], by simp, by simp⟩, [], env, ?_, rfl, by simp, by simp, ?_⟩
    · unfold set_state
      rw [if_pos hempty]
    · intro hfin
      exact ⟨rfl, by simp⟩
  rename_i hempty
  split at hdry
  · exact Except.noConfusion hdry
  rename_i haware
  split at hdry
  · exact Except.noConfusion hdry
  rename_i hmulti
  split at hdry
  · rename_i hhead
    injection hdry with h
    rw [Prod.mk.injEq] at h
    obtain ⟨h1, h2⟩ := h
    subst h1
    subst h2
    refine ⟨⟨[], by simp, by simp⟩, [], env, ?_, rfl, by simp, by simp, ?_⟩
    · unfold set_state
      rw [if_neg hempty, if_neg haware, if_neg hmulti, hhead]
    · intro hfin
      exact ⟨rfl, by simp⟩
  rename_i hd hhead
  split at hdry
  · exact Except.noConfusion hdry
  rename_i dag hdag
  split at hdry
  · exact Except.noConfusion hdry
  rename_i dates hdates
  injection hdry with h
  have hc0 : c0 = ssrCands env dag
      (_find_task_relatives dag (tasks.map (·.1)) downstream upstream) dates state false :=
    (congrArg Prod.fst h).symm
  subst hc0
  have henv1 : env1 = (ssrPipeline env dag
      (_find_task_relatives dag (tasks.map (·.1)) downstream upstream) dates state false).2 :=
    (congrArg Prod.snd h).symm
  subst henv1
  generalize htids : _find_task_relatives dag (tasks.map (·.1)) downstream upstream = tids
  have hTrue : set_state env tasks execution_date upstream downstream future past state true
      = .ok (setStateResolved env dag tids dates state true) := by
    unfold set_state
    rw [if_neg hempty, if_neg haware, if_neg hmulti, hhead]
    dsimp only
    rw [hdag]
    dsimp only
    rw [hdates]
    dsimp only
    rw [htids]
  obtain ⟨hids, hsim⟩ := ssrPipeline_sim env dag tids dates state false true
  obtain ⟨hdagsS, htisS, hnowS, hrunsS⟩ := hsim
  have hF2 : List.Forall₂ (fun a b => eraseRunState a = eraseRunState b)
      (ssrPipeline env dag tids dates state false).2.dag_runs
      (ssrPipeline env dag tids dates state true).2.dag_runs := by
    rwa [map_erase_forall2] at hrunsS
  obtain ⟨hshapeF, hnowF⟩ := ssrPipeline_shape env dag tids dates state false
  obtain ⟨-, hnowT⟩ := ssrPipeline_shape env dag tids dates state true
  have hP : ∀ ti : TIRow,
      (mainQueryPred (ssrPipeline env dag tids dates state true).2.dag_runs
          dag.dag_id state tids (ssrConfirmed env dag dates) ti
        || (!(ssrPipeline env dag tids dates state true).1.isEmpty &&
            subQueryPred (ssrPipeline env dag tids dates state true).2.dag_runs
              (ssrPipeline env dag tids dates state true).1 state
              (ssrConfirmed env dag dates) ti))
      = (mainQueryPred (ssrPipeline env dag tids dates state false).2.dag_runs
          dag.dag_id state tids (ssrConfirmed env dag dates) ti
        || (!(ssrPipeline env dag tids dates state false).1.isEmpty &&
            subQueryPred (ssrPipeline env dag tids dates state false).2.dag_runs
              (ssrPipeline env dag tids dates state false).1 state
              (ssrConfirmed env dag dates) ti)) := by
    intro ti
    rw [← hids,
      ← mainQueryPred_sim hF2 dag.dag_id state tids (ssrConfirmed env dag dates) ti,
      ← subQueryPred_sim hF2 (ssrPipeline env dag tids dates state false).1 state
        (ssrConfirmed env dag dates) ti]
  have hc1 : (setStateResolved env dag tids dates state true).1
      = (ssrCands env dag tids dates state false).map (applyTarget state env.now) := by
    show (ssrCands env dag tids dates state true).map
        (applyTarget state (ssrPipeline env dag tids dates state true).2.now)
      = (ssrCands env dag tids dates state false).map (applyTarget state env.now)
    rw [ssrCands_comm env dag tids dates state, hnowT]
  have htis2 : (setStateResolved env dag tids dates state true).2.tis
      = (ssrPipeline env dag tids dates state false).2.tis.map
          (fun ti => if ti ∈ ssrCands env dag tids dates state false
            then applyTarget state env.now ti else ti) := by
    show (ssrPipeline env dag tids dates state true).2.tis.map
        (fun ti =>
          if mainQueryPred (ssrPipeline env dag tids dates state true).2.dag_runs
                dag.dag_id state tids (ssrConfirmed env dag dates) ti
              || (!(ssrPipeline env dag tids dates state true).1.isEmpty &&
                  subQueryPred (ssrPipeline env dag tids dates state true).2.dag_runs
                    (ssrPipeline env dag tids dates state true).1 state
                    (ssrConfirmed env dag dates) ti)
          then applyTarget state (ssrPipeline env dag tids dates state true).2.now ti
          else ti)
      = _
    rw [hnowT, ← htisS]
    refine List.map_congr_left ?_
    intro ti hti
    dsimp only
    rw [hP ti]
    cases hb : (mainQueryPred (ssrPipeline env dag tids dates state false).2.dag_runs
          dag.dag_id state tids (ssrConfirmed env dag dates) ti
        || (!(ssrPipeline env dag tids dates state false).1.isEmpty &&
            subQueryPred (ssrPipeline env dag tids dates state false).2.dag_runs
              (ssrPipeline env dag tids dates state false).1 state
              (ssrConfirmed env dag dates) ti)) with
    | true =>
      rw [if_pos rfl,
        if_pos ((ssrCands_mem_iff env dag tids dates state ti).2 ⟨hti, hb⟩)]
    | false =>
      have hnot : ¬ ti ∈ ssrCands env dag tids dates state false := by
        intro hmem
        have hq := ((ssrCands_mem_iff env dag tids dates state ti).1 hmem).2
        rw [hb] at hq
        exact Bool.noConfusion hq
      rw [if_neg (by simp), if_neg hnot]
  have hmemsub : ∀ ti ∈ ssrCands env dag tids dates state false,
      ti ∈ (ssrPipeline env dag tids dates state false).2.tis :=
    fun ti hmem => ((ssrCands_mem_iff env dag tids dates state ti).1 hmem).1
  have hfinpart : finishedStates.contains state = true →
      (setStateResolved env dag tids dates state true).1
        = (ssrCands env dag tids dates state false).map (fun ti => set_duration
            { ti with state := some state, end_date := some env.now }) ∧
      ∀ ti1 ∈ (setStateResolved env dag tids dates state true).1,
        ti1.end_date = some env.now ∧ ti1.state = some state := by
    intro hfin
    constructor
    · rw [hc1]
      exact List.map_congr_left (fun ti _ => applyTarget_finished state env.now ti hfin)
    · intro ti1 hti1
      rw [hc1] at hti1
      obtain ⟨ti, -, rfl⟩ := List.mem_map.1 hti1
      exact applyTarget_finished_end_date state env.now ti hfin
  exact ⟨hshapeF, (setStateResolved env dag tids dates state true).1,
    (setStateResolved env dag tids dates state true).2, hTrue, hc1, htis2, hmemsub, hfinpart⟩

theorem set_state_dry_run_vs_commit_witness :
    ((∃ new, exC3Env1.tis = exEnv.tis ++ new ∧ ∀ ti ∈ new, ti.state = none) ∧
      ∃ c1 env2,
        set_state exEnv [(exTaskA, some exDag)] { val := 5 }
            false false false false .success true = .ok (c1, env2) ∧
        c1 = exC3Cands.map (applyTarget .success exEnv.now) ∧
        env2.tis = exC3Env1.tis.map
          (fun ti => if ti ∈ exC3Cands then applyTarget .success exEnv.now ti else ti) ∧
        (∀ ti ∈ exC3Cands, ti ∈ exC3Env1.tis) ∧
        (finishedStates.contains TIState.success = true →
          c1 = exC3Cands.map (fun ti => set_duration
            { ti with state := some .success, end_date := some exEnv.now }) ∧
          ∀ ti1 ∈ c1, ti1.end_date = some exEnv.now ∧ ti1.state = some .success)) :=
  set_state_dry_run_vs_commit exEnv [(exTaskA, some exDag)] { val := 5 }
    false false false false .success exC3Cands exC3Env1 (by rfl)

end Airflow
